import Mathlib

/-!
Shallow embedding of the `cambiare` order-book core (`src/order_book.rs`).

All `u64` newtypes (`Price`, `Volume`, `Balance`, `OrderId`) are modelled as
`Nat`; every subtraction performed by the code is guarded by a comparison in
the code itself (or by the level invariant), so `Nat` truncated subtraction
agrees with the machine arithmetic on every path the theorems talk about.
The `BTreeMap<Price, Level>` is modelled as an association list of
`(price, level)` pairs kept in ascending key order by the insertion routine,
matching the map's iteration order.
-/

namespace Cambiare

/-- The u64 sentinel value `u64::MAX`. -/
def U64MAX : Nat := 18446744073709551615

/-- Mirrors `Quote { order_id, volume }`. -/
structure Quote where
  order_id : Nat
  volume : Nat
deriving DecidableEq

/-- Mirrors `Quote::tombstone()`. -/
def Quote.tombstone : Quote := ⟨U64MAX, U64MAX⟩

/-- Mirrors `Quote::is_tombstone`. -/
def Quote.is_tombstone (q : Quote) : Bool := q.order_id == U64MAX

/-- Mirrors `MatchType`. -/
inductive MatchType where
  | MakerFilled
  | TakerFilled
  | BothFilled
deriving DecidableEq

/-- Mirrors `Match`. -/
structure Match where
  maker_order_id : Nat
  taker_order_id : Nat
  price : Nat
  volume : Nat
  typ : MatchType
deriving DecidableEq

/-- Mirrors `Level { total_volume, quotes, tombstone_count }`. -/
structure Level where
  total_volume : Nat
  quotes : List Quote
  tombstone_count : Nat
deriving DecidableEq

/-- Mirrors `TOMBSTONE_GC_LIMIT`. -/
def TOMBSTONE_GC_LIMIT : Nat := 1000

/-- Mirrors `Level::iter_quotes` (the non-tombstone quotes, in FIFO order). -/
def Level.iter_quotes (l : Level) : List Quote :=
  l.quotes.filter (fun q => !q.is_tombstone)

/-- Mirrors `Level::compact` (`Vec::retain` keeps relative order). -/
def Level.compact (l : Level) : Level :=
  { l with quotes := l.quotes.filter (fun q => !q.is_tombstone), tombstone_count := 0 }

/-- Mirrors `Level::maybe_compact`. -/
def Level.maybe_compact (l : Level) : Level :=
  if TOMBSTONE_GC_LIMIT ≤ l.tombstone_count then l.compact else l

/-- Mirrors `Level::clear`. -/
def Level.clearLevel (_l : Level) : Level :=
  { total_volume := 0, quotes := [], tombstone_count := 0 }

/-- Mirrors `Outcome`. -/
inductive Outcome where
  | PlacedExisting
  | PlacedNew
  | PlacedNewBest
  | CrossedSpread
deriving DecidableEq

/-- Mirrors `Cancellation`. -/
inductive Cancellation where
  | WasCancelled
  | NotFound
deriving DecidableEq

/-- Mirrors `TxnOutcome`. -/
inductive TxnOutcome where
  | Filled (new_best_price : Nat)
  | PartiallyFilled (volume_transacted : Nat) (new_best_price : Nat)
  | MarketVolumeExhausted (volume_transacted : Nat)
  | FailedInsufficientFunds
deriving DecidableEq

/-- Mirrors `OrderTarget`. -/
inductive OrderTarget where
  | LimitBuy (max_buy_price : Nat)
  | LimitSell (min_sell_price : Nat)
  | MarketBuy (available_quote_balance : Nat)
  | MarketSell
deriving DecidableEq

/-- The price-bound test at the top of `execute_market_txn`'s loop. -/
def priceStop (t : OrderTarget) (price : Nat) : Bool :=
  match t with
  | .LimitBuy max_buy_price => max_buy_price < price
  | .LimitSell min_sell_price => price < min_sell_price
  | .MarketBuy _ => false
  | .MarketSell => false

/-- `BTreeMap::get` on the association-list model (exact key lookup). -/
def lookupLevel (price : Nat) : List (Nat × Level) → Option Level
  | [] => none
  | (p, l) :: rest => if p = price then some l else lookupLevel price rest

/-- Write back a level obtained by `get_mut`: replace the entry at the key. -/
def setLevel (price : Nat) (l' : Level) : List (Nat × Level) → List (Nat × Level)
  | [] => []
  | (p, l) :: rest =>
      if p = price then (p, l') :: rest else (p, l) :: setLevel price l' rest

/-- The `levels.entry(price)` match inside `add_bid` / `add_ask`: insert a fresh
level on `Vacant`, append the quote and bump `total_volume` on `Occupied`.
The returned `Bool` is the code's `did_update` flag. Insertion keeps the
association list in ascending key order (the `BTreeMap` order). -/
def addToLevels (price : Nat) (q : Quote) : List (Nat × Level) → Bool × List (Nat × Level)
  | [] => (false, [(price, ⟨q.volume, [q], 0⟩)])
  | (p, l) :: rest =>
      if price < p then
        (false, (price, ⟨q.volume, [q], 0⟩) :: (p, l) :: rest)
      else if price = p then
        (l.total_volume != 0,
          (p, { l with total_volume := l.total_volume + q.volume,
                       quotes := l.quotes ++ [q] }) :: rest)
      else
        let r := addToLevels price q rest
        (r.1, (p, l) :: r.2)

/-- Merge the levels mutated through `range_mut` back into the full map:
every entry whose key appears in `upd` is replaced by its updated level. -/
def replaceLevels (upd : List (Nat × Level)) (ls : List (Nat × Level)) : List (Nat × Level) :=
  ls.map (fun pl =>
    match lookupLevel pl.1 upd with
    | some l' => (pl.1, l')
    | none => pl)

/-- The quote-scan loop of `OrderBook::cancel`: find the first quote with the
given `order_id`, return its volume and the list with it tombstoned. -/
def cancelQuotes (oid : Nat) : List Quote → Option (Nat × List Quote)
  | [] => none
  | q :: qs =>
      if q.order_id == oid then some (q.volume, Quote.tombstone :: qs)
      else
        match cancelQuotes oid qs with
        | none => none
        | some (v, qs') => some (v, q :: qs')

/-- The `iter_quotes_mut` walk of the level-terminating branch of
`execute_market_txn`: consume quotes FIFO, skipping tombstones, until the
taker's remaining volume is used up. Returns the updated quote list, the
emitted matches and the code's `tombstone_inc` counter. -/
def fillQuotes (oid price : Nat) : Nat → List Quote → List Quote × List Match × Nat
  | _, [] => ([], [], 0)
  | rem, q :: qs =>
      if q.is_tombstone then
        let r := fillQuotes oid price rem qs
        (q :: r.1, r.2.1, r.2.2)
      else if rem < q.volume then
        ({ q with volume := q.volume - rem } :: qs,
          [⟨q.order_id, oid, price, rem, .TakerFilled⟩], 0)
      else if rem = q.volume then
        (Quote.tombstone :: qs, [⟨q.order_id, oid, price, rem, .BothFilled⟩], 0)
      else
        let r := fillQuotes oid price (rem - q.volume) qs
        (Quote.tombstone :: r.1,
          ⟨q.order_id, oid, price, q.volume, .MakerFilled⟩ :: r.2.1,
          r.2.2 + 1)

/-- The dry-run validation loop at the top of `execute_market_buy`.
Returns `true` when the walk completes without the per-step cost check
`price * vol > rem_bal` firing. -/
def validateFunds : List (Nat × Level) → Nat → Nat → Bool
  | [], _, _ => true
  | (price, l) :: rest, rem_bal, rem_vol =>
      let vol := min rem_vol l.total_volume
      if rem_bal < price * vol then false
      else if rem_vol < l.total_volume then true
      else validateFunds rest (rem_bal - price * l.total_volume) (rem_vol - l.total_volume)

/-- Mirrors `execute_market_txn`. The level iterator is the list of
`(price, level)` pairs in iteration order; the result carries the outcome,
the emitted matches and the updated levels (same keys, same order). -/
def execute_market_txn (oid target_vol : Nat) (tgt : OrderTarget) :
    Nat → List (Nat × Level) → TxnOutcome × List Match × List (Nat × Level)
  | rem, [] => (.MarketVolumeExhausted (target_vol - rem), [], [])
  | rem, (price, level) :: rest =>
      if priceStop tgt price then
        (.PartiallyFilled (target_vol - rem) price, [], (price, level) :: rest)
      else if rem = 0 then
        (.Filled price, [], (price, level) :: rest)
      else if level.total_volume ≤ rem then
        let rem' := rem - level.total_volume
        let ms := level.iter_quotes.map (fun q =>
          (⟨q.order_id, oid, price, q.volume,
            if rem' = 0 then .BothFilled else .MakerFilled⟩ : Match))
        let r := execute_market_txn oid target_vol tgt rem' rest
        (r.1, ms ++ r.2.1, (price, level.clearLevel) :: r.2.2)
      else
        let r := fillQuotes oid price rem level.quotes
        let l' := Level.maybe_compact
          { total_volume := level.total_volume - rem,
            quotes := r.1,
            tombstone_count := level.tombstone_count + r.2.2 }
        (.Filled price, r.2.1, (price, l') :: rest)

/-- Mirrors `OrderBook`. -/
structure OrderBook where
  best_ask : Nat
  best_bid : Nat
  levels : List (Nat × Level)
deriving DecidableEq

/-- Mirrors `OrderBook::new`. -/
def OrderBook.new : OrderBook := ⟨U64MAX, 0, []⟩

/-- Mirrors `OrderBook::ask_levels` (`levels.range(best_ask..)`). -/
def OrderBook.ask_levels (b : OrderBook) : List (Nat × Level) :=
  b.levels.filter (fun pl => b.best_ask ≤ pl.1)

/-- Mirrors `OrderBook::bid_levels` (`levels.range(..=best_bid).rev()`). -/
def OrderBook.bid_levels (b : OrderBook) : List (Nat × Level) :=
  (b.levels.filter (fun pl => pl.1 ≤ b.best_bid)).reverse

/-- Mirrors `OrderBook::add_bid`. Returns the `Outcome` and the new book. -/
def OrderBook.add_bid (b : OrderBook) (price : Nat) (q : Quote) : Outcome × OrderBook :=
  if b.best_ask ≤ price then (.CrossedSpread, b)
  else
    let r := addToLevels price q b.levels
    if b.best_bid < price then
      (.PlacedNewBest, { b with best_bid := price, levels := r.2 })
    else if r.1 then
      (.PlacedExisting, { b with levels := r.2 })
    else
      (.PlacedNew, { b with levels := r.2 })

/-- Mirrors `OrderBook::add_ask`. -/
def OrderBook.add_ask (b : OrderBook) (price : Nat) (q : Quote) : Outcome × OrderBook :=
  if price ≤ b.best_bid then (.CrossedSpread, b)
  else
    let r := addToLevels price q b.levels
    if price < b.best_ask then
      (.PlacedNewBest, { b with best_ask := price, levels := r.2 })
    else if r.1 then
      (.PlacedExisting, { b with levels := r.2 })
    else
      (.PlacedNew, { b with levels := r.2 })

/-- Mirrors `OrderBook::cancel`. -/
def OrderBook.cancel (b : OrderBook) (price oid : Nat) : Cancellation × OrderBook :=
  match lookupLevel price b.levels with
  | none => (.NotFound, b)
  | some l =>
      match cancelQuotes oid l.quotes with
      | none => (.NotFound, b)
      | some (v, qs') =>
          let l' := Level.maybe_compact
            { total_volume := l.total_volume - v,
              quotes := qs',
              tombstone_count := l.tombstone_count + 1 }
          (.WasCancelled, { b with levels := setLevel price l' b.levels })

/-- Mirrors `OrderBook::execute_market_buy`. The returned triple is the
outcome, the matches appended to the fill buffer, and the new book. -/
def OrderBook.execute_market_buy (b : OrderBook) (oid target_vol bal : Nat) :
    TxnOutcome × List Match × OrderBook :=
  if validateFunds b.ask_levels bal target_vol then
    let r := execute_market_txn oid target_vol (.MarketBuy bal) target_vol b.ask_levels
    let levels' := replaceLevels r.2.2 b.levels
    match r.1 with
    | .Filled nbp => (r.1, r.2.1, { b with best_ask := nbp, levels := levels' })
    | _ => (r.1, r.2.1, { b with best_ask := U64MAX, levels := levels' })
  else
    (.FailedInsufficientFunds, [], b)

/-- Mirrors `OrderBook::execute_market_sell`. -/
def OrderBook.execute_market_sell (b : OrderBook) (oid target_vol : Nat) :
    TxnOutcome × List Match × OrderBook :=
  let r := execute_market_txn oid target_vol .MarketSell target_vol b.bid_levels
  let levels' := replaceLevels r.2.2 b.levels
  match r.1 with
  | .Filled nbp => (r.1, r.2.1, { b with best_bid := nbp, levels := levels' })
  | _ => (r.1, r.2.1, { b with best_bid := 0, levels := levels' })

/-- Mirrors `OrderBook::execute_limit_buy_order`. `none` models a panic
(`assert_placed` hitting `CrossedSpread`, or the `unreachable!` arm). -/
def OrderBook.execute_limit_buy_order (b : OrderBook) (oid target_price target_vol : Nat) :
    Option (TxnOutcome × List Match × OrderBook) :=
  let r := execute_market_txn oid target_vol (.LimitBuy target_price) target_vol b.ask_levels
  let levels' := replaceLevels r.2.2 b.levels
  match r.1 with
  | .Filled nbp => some (r.1, r.2.1, { b with best_ask := nbp, levels := levels' })
  | .PartiallyFilled vt nbp =>
      let b1 : OrderBook := { b with best_ask := nbp, levels := levels' }
      let a := b1.add_bid target_price ⟨oid, target_vol - vt⟩
      if a.1 = .CrossedSpread then none else some (r.1, r.2.1, a.2)
  | .MarketVolumeExhausted vt =>
      let b1 : OrderBook := { b with best_ask := U64MAX, levels := levels' }
      let a := b1.add_bid target_price ⟨oid, target_vol - vt⟩
      if a.1 = .CrossedSpread then none else some (r.1, r.2.1, a.2)
  | .FailedInsufficientFunds => none

/-- Mirrors `OrderBook::execute_limit_sell_order`. -/
def OrderBook.execute_limit_sell_order (b : OrderBook) (oid target_price target_vol : Nat) :
    Option (TxnOutcome × List Match × OrderBook) :=
  let r := execute_market_txn oid target_vol (.LimitSell target_price) target_vol b.bid_levels
  let levels' := replaceLevels r.2.2 b.levels
  match r.1 with
  | .Filled nbp => some (r.1, r.2.1, { b with best_bid := nbp, levels := levels' })
  | .PartiallyFilled vt nbp =>
      let b1 : OrderBook := { b with best_bid := nbp, levels := levels' }
      let a := b1.add_ask target_price ⟨oid, target_vol - vt⟩
      if a.1 = .CrossedSpread then none else some (r.1, r.2.1, a.2)
  | .MarketVolumeExhausted vt =>
      let b1 : OrderBook := { b with best_bid := 0, levels := levels' }
      let a := b1.add_ask target_price ⟨oid, target_vol - vt⟩
      if a.1 = .CrossedSpread then none else some (r.1, r.2.1, a.2)
  | .FailedInsufficientFunds => none

/-- Mirrors `OrderType` (the event-loop command alphabet). -/
inductive OrderType where
  | MarketBuy (target_base_qty available_quote_balance : Nat)
  | MarketBuyQ (target_quote_balance : Nat)
  | MarketSell (base_qty : Nat)
  | MarketSellQ (target_quote_balance available_base_qty : Nat)
  | LimitBuy (price volume : Nat)
  | LimitSell (price volume : Nat)
  | Cancel (price order_id : Nat)
  | SendSnapshot
deriving DecidableEq

/-- Mirrors `Order`. -/
structure Order where
  id : Nat
  typ : OrderType
deriving DecidableEq

/-- One iteration of `run_orderbook_event_loop`: dispatch a command and return
the new book together with the matches drained to the match channel.
`none` models the process aborting (`todo!()` / `unreachable!` / panic). -/
def processOrder (b : OrderBook) (o : Order) : Option (OrderBook × List Match) :=
  match o.typ with
  | .MarketBuy v bal =>
      let r := b.execute_market_buy o.id v bal
      some (r.2.2, r.2.1)
  | .MarketSell v =>
      let r := b.execute_market_sell o.id v
      some (r.2.2, r.2.1)
  | .MarketBuyQ _ => none
  | .MarketSellQ _ _ => none
  | .LimitBuy p v =>
      match b.execute_limit_buy_order o.id p v with
      | some r => some (r.2.2, r.2.1)
      | none => none
  | .LimitSell p v =>
      match b.execute_limit_sell_order o.id p v with
      | some r => some (r.2.2, r.2.1)
      | none => none
  | .Cancel p oid =>
      match b.cancel p oid with
      | (.WasCancelled, b') => some (b', [])
      | (.NotFound, _) => none
  | .SendSnapshot => some (b, [])


/-! ## Specification-side definitions -/

/-- Spec-side cost of the market-buy dry run: accumulate
`price * min(remaining_vol, level.total_volume)` over ask levels, bounded by
the target volume (the walk stops at the first level it does not exhaust). -/
def dryRunCost : List (Nat × Level) → Nat → Nat
  | [], _ => 0
  | (price, l) :: rest, rem_vol =>
      if rem_vol < l.total_volume then price * min rem_vol l.total_volume
      else price * min rem_vol l.total_volume + dryRunCost rest (rem_vol - l.total_volume)

/-- Number of quotes in a queue carrying a given order id. -/
def countId (oid : Nat) (qs : List Quote) : Nat :=
  (qs.filter (fun q => q.order_id == oid)).length

/-- Number of quotes carrying `oid` at the level stored under `price`. -/
def bookIdCount (b : OrderBook) (price oid : Nat) : Nat :=
  match lookupLevel price b.levels with
  | none => 0
  | some l => countId oid l.quotes

/-! ## Basic lemmas about the matching kernel -/

theorem kernel_ne_failed (oid tv : Nat) (tgt : OrderTarget) :
    ∀ (ls : List (Nat × Level)) (rem : Nat),
      (execute_market_txn oid tv tgt rem ls).1 ≠ .FailedInsufficientFunds := by
  intro ls
  induction ls with
  | nil => intro rem; simp [execute_market_txn]
  | cons hd tl ih =>
      intro rem
      obtain ⟨price, level⟩ := hd
      simp only [execute_market_txn]
      split
      · simp
      · split
        · simp
        · split
          · simpa using ih _
          · simp

theorem validateFunds_eq_false_iff :
    ∀ (ls : List (Nat × Level)) (bal vol : Nat),
      validateFunds ls bal vol = false ↔ bal < dryRunCost ls vol := by
  intro ls
  induction ls with
  | nil => intro bal vol; simp [validateFunds, dryRunCost]
  | cons hd tl ih =>
      intro bal vol
      obtain ⟨price, l⟩ := hd
      simp only [validateFunds, dryRunCost]
      by_cases h1 : bal < price * min vol l.total_volume
      · by_cases h2 : vol < l.total_volume
        · simp [h1, h2]
        · simp only [if_pos h1, if_neg h2]
          simp only [true_iff]
          exact lt_of_lt_of_le h1 (Nat.le_add_right _ _)
      · by_cases h2 : vol < l.total_volume
        · simp [h1, h2]
        · simp only [if_neg h1, if_neg h2]
          rw [ih]
          have hm : min vol l.total_volume = l.total_volume :=
            Nat.min_eq_right (Nat.le_of_not_lt h2)
          rw [hm] at h1 ⊢
          generalize price * l.total_volume = t at h1 ⊢
          generalize dryRunCost tl (vol - l.total_volume) = c
          omega

/-! ## Claim C4 -/

/-- Claim C4: admission rejections are atomic — an `add_bid` or `add_ask`
returning `CrossedSpread` leaves the book exactly as it was, and an
`execute_market_buy` returning `FailedInsufficientFunds` leaves the book
unchanged and appends no `Match` record. -/
theorem C4_rejections_atomic (b : OrderBook) (price : Nat) (q : Quote) (oid tv bal : Nat) :
    ((b.add_bid price q).1 = .CrossedSpread → (b.add_bid price q).2 = b) ∧
    ((b.add_ask price q).1 = .CrossedSpread → (b.add_ask price q).2 = b) ∧
    ((b.execute_market_buy oid tv bal).1 = .FailedInsufficientFunds →
      (b.execute_market_buy oid tv bal).2.2 = b ∧ (b.execute_market_buy oid tv bal).2.1 = []) := by
  refine ⟨?_, ?_, ?_⟩
  · intro h
    by_cases hc : b.best_ask ≤ price
    · simp [OrderBook.add_bid, hc]
    · exfalso
      simp only [OrderBook.add_bid, if_neg hc] at h
      split at h
      · simp at h
      · split at h <;> simp at h
  · intro h
    by_cases hc : price ≤ b.best_bid
    · simp [OrderBook.add_ask, hc]
    · exfalso
      simp only [OrderBook.add_ask, if_neg hc] at h
      split at h
      · simp at h
      · split at h <;> simp at h
  · intro h
    by_cases hv : validateFunds b.ask_levels bal tv = true
    · exfalso
      simp only [OrderBook.execute_market_buy, if_pos hv] at h
      apply kernel_ne_failed oid tv (.MarketBuy bal) b.ask_levels tv
      split at h <;> simpa using h
    · have hv' : validateFunds b.ask_levels bal tv = false := by
        cases hb : validateFunds b.ask_levels bal tv
        · rfl
        · exact absurd hb hv
      simp [OrderBook.execute_market_buy, hv']

/-- Witness for C4 at concrete rejected inputs. -/
theorem C4_rejections_atomic_witness :
    ((OrderBook.new.add_ask 10 ⟨1, 5⟩).2.add_bid 10 ⟨2, 3⟩).2 =
        (OrderBook.new.add_ask 10 ⟨1, 5⟩).2 ∧
    (((OrderBook.new.add_ask 10 ⟨1, 5⟩).2.execute_market_buy 7 1 0).2.2 =
        (OrderBook.new.add_ask 10 ⟨1, 5⟩).2 ∧
      ((OrderBook.new.add_ask 10 ⟨1, 5⟩).2.execute_market_buy 7 1 0).2.1 = []) :=
  ⟨(C4_rejections_atomic (OrderBook.new.add_ask 10 ⟨1, 5⟩).2 10 ⟨2, 3⟩ 7 1 0).1 (by decide),
   (C4_rejections_atomic (OrderBook.new.add_ask 10 ⟨1, 5⟩).2 10 ⟨2, 3⟩ 7 1 0).2.2 (by decide)⟩

/-! ## Claim C5 -/

/-- Claim C5: `execute_market_buy` returns `FailedInsufficientFunds` exactly
when the dry-run cost — the sum of `min(remaining_vol, level.total_volume) * price`
over ask levels, bounded by the target volume — strictly exceeds the available
quote balance; a cost equal to the balance is admitted. -/
theorem C5_insufficient_funds_iff (b : OrderBook) (oid tv bal : Nat) :
    (b.execute_market_buy oid tv bal).1 = .FailedInsufficientFunds ↔
      bal < dryRunCost b.ask_levels tv := by
  simp only [OrderBook.execute_market_buy]
  by_cases hv : validateFunds b.ask_levels bal tv = true
  · rw [if_pos hv]
    have hcost : ¬ bal < dryRunCost b.ask_levels tv := by
      intro hc
      rw [← validateFunds_eq_false_iff] at hc
      rw [hv] at hc
      cases hc
    constructor
    · intro h
      exfalso
      apply kernel_ne_failed oid tv (.MarketBuy bal) b.ask_levels tv
      split at h <;> simpa using h
    · intro h
      exact absurd h hcost
  · have hv' : validateFunds b.ask_levels bal tv = false := by
      cases hb : validateFunds b.ask_levels bal tv
      · rfl
      · exact absurd hb hv
    rw [hv']
    simp only [Bool.false_eq_true, if_false]
    constructor
    · intro _
      exact (validateFunds_eq_false_iff b.ask_levels bal tv).mp hv'
    · intro _
      trivial

/-- The balance-limited scenario from the source's tests: against asks
`5@35x10, 6@40x20, 7@45x30, 8@50x40`, a buy of 10 units fails with balance 349
and fills with balance 350 (10 x 35 = 350). -/
theorem balance_349_350_scenario :
    let b := ((((OrderBook.new.add_ask 35 ⟨5, 10⟩).2.add_ask 40 ⟨6, 20⟩).2.add_ask
      45 ⟨7, 30⟩).2.add_ask 50 ⟨8, 40⟩).2
    (b.execute_market_buy 102 10 349).1 = .FailedInsufficientFunds ∧
    (b.execute_market_buy 103 10 350).1 = .Filled 40 := by decide

/-! ## Claim C7 -/

/-- Claim C7 (code bug): the event loop does NOT locally recover a `Cancel`
of a non-existent order — the `Cancellation::NotFound` arm of
`run_orderbook_event_loop` is `todo!()`, which panics. Here `none` is the
panic outcome of one dispatch step, at the concrete failing input of a
`Cancel` command on the initial empty book. -/
theorem C7_cancel_notfound_panics :
    processOrder OrderBook.new ⟨5, .Cancel 10 7⟩ = none := by decide

/-! ## Claim C10 -/

/-- Claim C10: a limit buy whose matching pass consumes exactly its target
volume by exhausting a level, then runs out of levels, terminates with
`MarketVolumeExhausted` carrying `volume_transacted = target_vol`, and the
residual quote of volume zero is inserted at the limit price: the final book
holds the live (non-tombstone) quote `(order_id 100, volume 0)` at price 10,
violating the `quote.volume > 0` admission precondition. -/
theorem C10_zero_volume_residual :
    ((OrderBook.new.add_ask 10 ⟨1, 10⟩).2.execute_limit_buy_order 100 10 10) =
      some (.MarketVolumeExhausted 10, [⟨1, 100, 10, 10, .BothFilled⟩],
        ⟨U64MAX, 10, [(10, ⟨0, [⟨100, 0⟩], 0⟩)]⟩) ∧
    Quote.is_tombstone ⟨100, 0⟩ = false := by decide

/-! ## Claim C1 -/

/-- Claim C1 counterexample: a single ask level at price 10 holding two live
quotes of volume 5 each, consumed by a market buy of exactly 10 units. The
claim demands `MakerFilled` on the first (non-final) quote of the level; the
code emits `BothFilled` for BOTH quotes, because the taker's remaining volume
is reduced by the whole level before the tags are chosen. -/
theorem C1_counterexample :
    (((OrderBook.new.add_ask 10 ⟨1, 5⟩).2.add_ask 10 ⟨2, 5⟩).2.execute_market_buy
        100 10 1000).2.1 =
      [⟨1, 100, 10, 5, .BothFilled⟩, ⟨2, 100, 10, 5, .BothFilled⟩] := by decide

/-- Claim C1 (amended): in the level-exhausting case
(`level.total_volume ≤ remaining`, price bound not hit, remaining nonzero)
the tag is computed once from the remaining volume AFTER subtracting the
whole level: every live quote of the level emits a match with the SAME tag —
`BothFilled` when the level exactly closes the taker, `MakerFilled`
otherwise — so when a level with two or more live quotes exactly exhausts
the taker, ALL of that level's matches (not only the last) are `BothFilled`. -/
theorem C1_amended_uniform_tag (oid tv : Nat) (tgt : OrderTarget) (rem price : Nat)
    (level : Level) (rest : List (Nat × Level))
    (h1 : priceStop tgt price = false) (h2 : rem ≠ 0) (h3 : level.total_volume ≤ rem) :
    ∃ lvlms,
      (execute_market_txn oid tv tgt rem ((price, level) :: rest)).2.1 =
        lvlms ++ (execute_market_txn oid tv tgt (rem - level.total_volume) rest).2.1 ∧
      lvlms.length = level.iter_quotes.length ∧
      ∀ m ∈ lvlms, m.price = price ∧
        m.typ = (if rem - level.total_volume = 0 then .BothFilled else .MakerFilled) := by
  refine ⟨level.iter_quotes.map (fun q =>
    (⟨q.order_id, oid, price, q.volume,
      if rem - level.total_volume = 0 then .BothFilled else .MakerFilled⟩ : Match)), ?_, ?_, ?_⟩
  · simp [execute_market_txn, h1, h2, h3]
  · simp
  · intro m hm
    simp only [List.mem_map] at hm
    obtain ⟨q, _, rfl⟩ := hm
    exact ⟨rfl, rfl⟩

/-- Witness for the amended C1 at the counterexample's level. -/
theorem C1_amended_uniform_tag_witness :
    ∃ lvlms,
      (execute_market_txn 100 10 (.MarketBuy 1000) 10
          [(10, ⟨10, [⟨1, 5⟩, ⟨2, 5⟩], 0⟩)]).2.1 =
        lvlms ++ (execute_market_txn 100 10 (.MarketBuy 1000)
          (10 - (⟨10, [⟨1, 5⟩, ⟨2, 5⟩], 0⟩ : Level).total_volume) []).2.1 ∧
      lvlms.length = (⟨10, [⟨1, 5⟩, ⟨2, 5⟩], 0⟩ : Level).iter_quotes.length ∧
      ∀ m ∈ lvlms, m.price = 10 ∧
        m.typ = (if 10 - (⟨10, [⟨1, 5⟩, ⟨2, 5⟩], 0⟩ : Level).total_volume = 0
          then .BothFilled else .MakerFilled) :=
  C1_amended_uniform_tag 100 10 (.MarketBuy 1000) 10 10 ⟨10, [⟨1, 5⟩, ⟨2, 5⟩], 0⟩ []
    (by decide) (by decide) (by decide)

/-! ## Claim C6 -/

theorem cancelQuotes_eq_none_iff (oid : Nat) :
    ∀ qs : List Quote, cancelQuotes oid qs = none ↔ countId oid qs = 0 := by
  intro qs
  induction qs with
  | nil => simp [cancelQuotes, countId]
  | cons q qs ih =>
      by_cases hq : q.order_id == oid
      · have hcnt : countId oid (q :: qs) = countId oid qs + 1 := by
          simp [countId, List.filter_cons, hq]
        have hcq : cancelQuotes oid (q :: qs) = some (q.volume, Quote.tombstone :: qs) := by
          simp [cancelQuotes, hq]
        rw [hcq, hcnt]
        simp
      · have hcnt : countId oid (q :: qs) = countId oid qs := by
          simp [countId, List.filter_cons, hq]
        rw [hcnt, ← ih]
        cases hc : cancelQuotes oid qs with
        | none => simp [cancelQuotes, hq, hc]
        | some r => simp [cancelQuotes, hq, hc]

theorem cancelQuotes_countId (oid : Nat) (hoid : oid ≠ U64MAX) :
    ∀ (qs : List Quote) (v : Nat) (qs' : List Quote),
      cancelQuotes oid qs = some (v, qs') → countId oid qs' + 1 = countId oid qs := by
  intro qs
  induction qs with
  | nil => intro v qs' h; simp [cancelQuotes] at h
  | cons q qs ih =>
      intro v qs' h
      simp only [cancelQuotes] at h
      by_cases hq : q.order_id == oid
      · simp only [hq, if_true] at h
        have heq : v = q.volume ∧ qs' = Quote.tombstone :: qs := by
          simpa [Prod.ext_iff] using h.symm
        have ht : (Quote.tombstone.order_id == oid) = false := by
          have hts : Quote.tombstone.order_id = U64MAX := rfl
          rw [hts]
          simp only [beq_eq_false_iff_ne, ne_eq]
          exact fun hx => hoid hx.symm
        rw [heq.2]
        simp [countId, List.filter_cons, hq, ht]
      · simp only [hq, Bool.false_eq_true, if_false] at h
        cases hc : cancelQuotes oid qs with
        | none => simp [hc] at h
        | some r =>
            obtain ⟨v0, qs0⟩ := r
            simp only [hc] at h
            have heq : v = v0 ∧ qs' = q :: qs0 := by
              simpa [Prod.ext_iff] using h.symm
            have hrec := ih v0 qs0 hc
            rw [heq.2]
            simp [countId, List.filter_cons, hq] at hrec ⊢
            omega

theorem countId_filter_live (oid : Nat) (hoid : oid ≠ U64MAX) (qs : List Quote) :
    countId oid (qs.filter (fun q => !q.is_tombstone)) = countId oid qs := by
  induction qs with
  | nil => simp [countId]
  | cons q qs ih =>
      by_cases hq : q.order_id == oid
      · have hlive : (q.is_tombstone : Bool) = false := by
          simp only [Quote.is_tombstone]
          have hqe : q.order_id = oid := by simpa using hq
          rw [hqe]
          simp only [beq_eq_false_iff_ne, ne_eq]
          exact hoid
        simp [countId, List.filter_cons, hq, hlive] at ih ⊢
        omega
      · cases hlive : (q.is_tombstone : Bool) with
        | false => simp [countId, List.filter_cons, hq, hlive] at ih ⊢; omega
        | true => simpa [countId, List.filter_cons, hq, hlive] using ih

theorem lookupLevel_setLevel_self (price : Nat) (l' : Level) :
    ∀ ls : List (Nat × Level), (lookupLevel price ls).isSome →
      lookupLevel price (setLevel price l' ls) = some l' := by
  intro ls
  induction ls with
  | nil => intro h; simp [lookupLevel] at h
  | cons hd tl ih =>
      intro h
      obtain ⟨p, l⟩ := hd
      by_cases hp : p = price
      · simp [lookupLevel, setLevel, hp]
      · simp only [lookupLevel, setLevel, hp, if_false] at h ⊢
        exact ih h

/-- Claim C6 counterexample: the claim quantifies over every book state, but
a book can hold two live quotes with the same order id at one price (two
`add_bid` calls); after a first `cancel` returns `WasCancelled`, the second
`cancel` of the same `(price, order_id)` again returns `WasCancelled`, not
`NotFound` as the claim demands. -/
theorem C6_counterexample :
    ((((OrderBook.new.add_bid 10 ⟨1, 5⟩).2.add_bid 10 ⟨1, 7⟩).2.cancel 10 1).1 =
        Cancellation.WasCancelled) ∧
    (((((OrderBook.new.add_bid 10 ⟨1, 5⟩).2.add_bid 10 ⟨1, 7⟩).2.cancel 10 1).2.cancel
        10 1).1 = Cancellation.WasCancelled) ∧
    Cancellation.WasCancelled ≠ Cancellation.NotFound := by decide

/-- Claim C6 (amended): cancellation is idempotent provided the order id is
not the tombstone sentinel and at most one quote at that price carries it
(the uniqueness the spec demands of callers): if `cancel(price, order_id)`
returns `WasCancelled`, an immediately following identical `cancel` returns
`NotFound` and leaves the book unchanged; and if no quote at `price` carries
`order_id`, `cancel` returns `NotFound` and leaves the book unchanged. -/
theorem C6_amended_cancel_idempotent (b : OrderBook) (price oid : Nat)
    (hoid : oid ≠ U64MAX) (huniq : bookIdCount b price oid ≤ 1) :
    ((b.cancel price oid).1 = .WasCancelled →
      (b.cancel price oid).2.cancel price oid = (.NotFound, (b.cancel price oid).2)) ∧
    (bookIdCount b price oid = 0 → b.cancel price oid = (.NotFound, b)) := by
  constructor
  · intro h
    cases hl : lookupLevel price b.levels with
    | none => simp [OrderBook.cancel, hl] at h
    | some l =>
        cases hc : cancelQuotes oid l.quotes with
        | none => simp [OrderBook.cancel, hl, hc] at h
        | some r =>
            obtain ⟨v, qs'⟩ := r
            have hcount : countId oid l.quotes ≤ 1 := by
              simpa [bookIdCount, hl] using huniq
            have hdrop := cancelQuotes_countId oid hoid l.quotes v qs' hc
            have hz : countId oid qs' = 0 := by omega
            have hbook : (b.cancel price oid).2 = OrderBook.mk b.best_ask b.best_bid
                (setLevel price
                  (Level.maybe_compact ⟨l.total_volume - v, qs', l.tombstone_count + 1⟩)
                  b.levels) := by
              simp [OrderBook.cancel, hl, hc]
            have hzl' : countId oid
                (Level.maybe_compact ⟨l.total_volume - v, qs', l.tombstone_count + 1⟩).quotes
                = 0 := by
              simp only [Level.maybe_compact]
              split
              · simpa [Level.compact, countId_filter_live oid hoid] using hz
              · exact hz
            have hlook2 : lookupLevel price (setLevel price
                (Level.maybe_compact ⟨l.total_volume - v, qs', l.tombstone_count + 1⟩)
                b.levels) =
                some (Level.maybe_compact ⟨l.total_volume - v, qs', l.tombstone_count + 1⟩) := by
              apply lookupLevel_setLevel_self
              simp [hl]
            have hnone : cancelQuotes oid
                (Level.maybe_compact ⟨l.total_volume - v, qs', l.tombstone_count + 1⟩).quotes
                = none :=
              (cancelQuotes_eq_none_iff oid _).mpr hzl'
            rw [hbook]
            simp [OrderBook.cancel, hlook2, hnone]
  · intro h
    cases hl : lookupLevel price b.levels with
    | none => simp [OrderBook.cancel, hl]
    | some l =>
        have hz : countId oid l.quotes = 0 := by
          simpa [bookIdCount, hl] using h
        have hnone : cancelQuotes oid l.quotes = none :=
          (cancelQuotes_eq_none_iff oid l.quotes).mpr hz
        simp [OrderBook.cancel, hl, hnone]

/-- Witness for the amended C6 at a concrete book with a single live quote. -/
theorem C6_amended_cancel_idempotent_witness :
    (((OrderBook.new.add_bid 10 ⟨1, 5⟩).2.cancel 10 1).1 = .WasCancelled →
      ((OrderBook.new.add_bid 10 ⟨1, 5⟩).2.cancel 10 1).2.cancel 10 1 =
        (.NotFound, ((OrderBook.new.add_bid 10 ⟨1, 5⟩).2.cancel 10 1).2)) ∧
    (bookIdCount (OrderBook.new.add_bid 10 ⟨1, 5⟩).2 10 1 = 0 →
      (OrderBook.new.add_bid 10 ⟨1, 5⟩).2.cancel 10 1 =
        (.NotFound, (OrderBook.new.add_bid 10 ⟨1, 5⟩).2)) :=
  C6_amended_cancel_idempotent (OrderBook.new.add_bid 10 ⟨1, 5⟩).2 10 1
    (by decide) (by decide)


/-! ## Claim C2: the level volume invariant -/

/-- Sum of the volumes of the non-tombstone quotes of a queue. -/
def qsum : List Quote → Nat
  | [] => 0
  | q :: qs => (if q.is_tombstone then 0 else q.volume) + qsum qs

/-- Spec-side live volume of a level: the sum over `iter_quotes`. -/
def Level.sumLive (l : Level) : Nat := (l.iter_quotes.map Quote.volume).sum

/-- The C2 invariant on one level: the cached total equals the live sum. -/
def LevelInv (l : Level) : Prop := l.total_volume = l.sumLive

/-- The C2 invariant on a list of `(price, level)` entries. -/
def LevelsInv (ls : List (Nat × Level)) : Prop := ∀ pl ∈ ls, LevelInv pl.2

/-- The C2 invariant on a whole book. -/
def BookInv (b : OrderBook) : Prop := LevelsInv b.levels

theorem sumLive_eq_qsum (l : Level) : l.sumLive = qsum l.quotes := by
  show ((l.quotes.filter (fun q => !q.is_tombstone)).map Quote.volume).sum = qsum l.quotes
  induction l.quotes with
  | nil => rfl
  | cons q qs ih =>
      cases hq : q.is_tombstone with
      | false => simp [List.filter_cons, hq, qsum, ih]
      | true => simp [List.filter_cons, hq, qsum, ih]

theorem levelInv_iff_qsum (l : Level) : LevelInv l ↔ l.total_volume = qsum l.quotes := by
  rw [LevelInv, sumLive_eq_qsum]

theorem qsum_filter_live (qs : List Quote) :
    qsum (qs.filter (fun q => !q.is_tombstone)) = qsum qs := by
  induction qs with
  | nil => rfl
  | cons q qs ih =>
      cases hq : q.is_tombstone with
      | false => simp [List.filter_cons, hq, qsum, ih]
      | true => simp [List.filter_cons, hq, qsum, ih]

theorem qsum_append_live (qs : List Quote) (q : Quote) (hq : q.is_tombstone = false) :
    qsum (qs ++ [q]) = qsum qs + q.volume := by
  induction qs with
  | nil => simp [qsum, hq]
  | cons p ps ih => simp [qsum, ih]; omega

theorem live_of_ne_sentinel (q : Quote) (hq : q.order_id ≠ U64MAX) :
    q.is_tombstone = false := by
  simp only [Quote.is_tombstone, beq_eq_false_iff_ne, ne_eq]
  exact hq

theorem maybe_compact_levelInv (l : Level) (h : LevelInv l) :
    LevelInv l.maybe_compact := by
  rw [levelInv_iff_qsum] at h ⊢
  simp only [Level.maybe_compact]
  split
  · simpa [Level.compact, qsum_filter_live] using h
  · exact h

theorem fillQuotes_qsum (oid price : Nat) :
    ∀ (qs : List Quote) (rem : Nat), rem < qsum qs →
      qsum (fillQuotes oid price rem qs).1 = qsum qs - rem := by
  intro qs
  induction qs with
  | nil => intro rem h; simp [qsum] at h
  | cons q qs ih =>
      intro rem h
      simp only [fillQuotes]
      cases ht : q.is_tombstone with
      | true =>
          simp only [ht, if_true]
          simp only [qsum, ht, if_true, Nat.zero_add] at h ⊢
          exact ih rem h
      | false =>
          simp only [ht, Bool.false_eq_true, if_false]
          by_cases h1 : rem < q.volume
          · simp only [if_pos h1]
            have hlive : ({ q with volume := q.volume - rem } : Quote).is_tombstone = false := ht
            simp [qsum, hlive, ht] at h ⊢
            omega
          · by_cases h2 : rem = q.volume
            · simp only [if_neg h1, if_pos h2]
              have htomb : (Quote.tombstone).is_tombstone = true := by decide
              simp [qsum, htomb, ht]
              omega
            · simp only [if_neg h1, if_neg h2]
              have htomb : (Quote.tombstone).is_tombstone = true := by decide
              have hgt : q.volume < rem := by omega
              have hrec : rem - q.volume < qsum qs := by
                simp [qsum, ht] at h
                omega
              have := ih (rem - q.volume) hrec
              simp [qsum, htomb, ht] at h ⊢
              omega

theorem cancelQuotes_qsum (oid : Nat) (hoid : oid ≠ U64MAX) :
    ∀ (qs : List Quote) (v : Nat) (qs' : List Quote),
      cancelQuotes oid qs = some (v, qs') → qsum qs' + v = qsum qs := by
  intro qs
  induction qs with
  | nil => intro v qs' h; simp [cancelQuotes] at h
  | cons q qs ih =>
      intro v qs' h
      simp only [cancelQuotes] at h
      by_cases hq : q.order_id == oid
      · simp only [hq, if_true] at h
        have heq : v = q.volume ∧ qs' = Quote.tombstone :: qs := by
          simpa [Prod.ext_iff] using h.symm
        have hlive : q.is_tombstone = false := by
          apply live_of_ne_sentinel
          have : q.order_id = oid := by simpa using hq
          rw [this]
          exact hoid
        have htomb : (Quote.tombstone).is_tombstone = true := by decide
        rw [heq.1, heq.2]
        simp [qsum, htomb, hlive]
        omega
      · simp only [hq, Bool.false_eq_true, if_false] at h
        cases hc : cancelQuotes oid qs with
        | none => simp [hc] at h
        | some r =>
            obtain ⟨v0, qs0⟩ := r
            simp only [hc] at h
            have heq : v = v0 ∧ qs' = q :: qs0 := by
              simpa [Prod.ext_iff] using h.symm
            have hrec := ih v0 qs0 hc
            rw [heq.1, heq.2]
            simp [qsum]
            omega

theorem lookupLevel_mem (price : Nat) (l : Level) :
    ∀ ls : List (Nat × Level), lookupLevel price ls = some l → (price, l) ∈ ls := by
  intro ls
  induction ls with
  | nil => intro h; simp [lookupLevel] at h
  | cons hd tl ih =>
      intro h
      obtain ⟨p, l0⟩ := hd
      by_cases hp : p = price
      · simp only [lookupLevel, hp, if_true] at h
        have : l0 = l := by simpa using h
        subst hp; subst this
        exact List.mem_cons_self _ _
      · simp only [lookupLevel, hp, if_false] at h
        exact List.mem_cons_of_mem _ (ih h)

theorem setLevel_mem (price : Nat) (l' : Level) :
    ∀ (ls : List (Nat × Level)) (pl : Nat × Level),
      pl ∈ setLevel price l' ls → pl ∈ ls ∨ pl.2 = l' := by
  intro ls
  induction ls with
  | nil => intro pl h; simp [setLevel] at h
  | cons hd tl ih =>
      intro pl h
      obtain ⟨p, l0⟩ := hd
      by_cases hp : p = price
      · simp only [setLevel, hp, if_true] at h
        rcases List.mem_cons.mp h with rfl | h
        · right; rfl
        · left; exact List.mem_cons_of_mem _ h
      · simp only [setLevel, hp, if_false] at h
        rcases List.mem_cons.mp h with rfl | h
        · left; exact List.mem_cons_self _ _
        · rcases ih pl h with h | h
          · left; exact List.mem_cons_of_mem _ h
          · right; exact h

theorem replaceLevels_levelsInv (upd ls : List (Nat × Level))
    (hupd : LevelsInv upd) (hls : LevelsInv ls) :
    LevelsInv (replaceLevels upd ls) := by
  intro pl hpl
  simp only [replaceLevels, List.mem_map] at hpl
  obtain ⟨pl0, hpl0, heq⟩ := hpl
  cases hlk : lookupLevel pl0.1 upd with
  | none =>
      rw [hlk] at heq
      rw [← heq]
      exact hls pl0 hpl0
  | some l' =>
      rw [hlk] at heq
      rw [← heq]
      exact hupd (pl0.1, l') (lookupLevel_mem _ _ _ hlk)

theorem kernel_levelsInv (oid tv : Nat) (tgt : OrderTarget) :
    ∀ (ls : List (Nat × Level)), LevelsInv ls →
      ∀ rem, LevelsInv (execute_market_txn oid tv tgt rem ls).2.2 := by
  intro ls
  induction ls with
  | nil => intro h rem pl hpl; simp [execute_market_txn] at hpl
  | cons hd tl ih =>
      intro h rem pl hpl
      obtain ⟨price, level⟩ := hd
      have hhd : LevelInv level := h (price, level) (List.mem_cons_self _ _)
      have htl : LevelsInv tl := fun pl hp => h pl (List.mem_cons_of_mem _ hp)
      simp only [execute_market_txn] at hpl
      split at hpl
      · exact h pl hpl
      · split at hpl
        · exact h pl hpl
        · split at hpl
          · have hpl' : pl = (price, level.clearLevel) ∨
                pl ∈ (execute_market_txn oid tv tgt
                  (rem - level.total_volume) tl).2.2 := by
              simpa using hpl
            rcases hpl' with rfl | hpl'
            · rw [levelInv_iff_qsum]
              rfl
            · exact ih htl _ pl hpl'
          · rename_i hstop hrem hle
            have hpl' : pl = (price, Level.maybe_compact
                ⟨level.total_volume - rem,
                  (fillQuotes oid price rem level.quotes).1,
                  level.tombstone_count + (fillQuotes oid price rem level.quotes).2.2⟩) ∨
                pl ∈ tl := by
              simpa using hpl
            rcases hpl' with rfl | hpl'
            · apply maybe_compact_levelInv
              rw [levelInv_iff_qsum] at hhd ⊢
              have hlt : rem < qsum level.quotes := by
                rw [← hhd]
                omega
              have hfq := fillQuotes_qsum oid price level.quotes rem hlt
              simp only [hfq]
              omega
            · exact htl pl hpl'

theorem ask_levels_levelsInv (b : OrderBook) (hb : BookInv b) : LevelsInv b.ask_levels :=
  fun pl hpl => hb pl (List.mem_of_mem_filter hpl)

theorem bid_levels_levelsInv (b : OrderBook) (hb : BookInv b) : LevelsInv b.bid_levels := by
  intro pl hpl
  rw [OrderBook.bid_levels, List.mem_reverse] at hpl
  exact hb pl (List.mem_of_mem_filter hpl)

theorem addToLevels_levelsInv (price : Nat) (q : Quote) (hq : q.is_tombstone = false) :
    ∀ ls : List (Nat × Level), LevelsInv ls →
      LevelsInv (addToLevels price q ls).2 := by
  intro ls
  induction ls with
  | nil =>
      intro _ pl hpl
      simp only [addToLevels] at hpl
      have : pl = (price, (⟨q.volume, [q], 0⟩ : Level)) := by simpa using hpl
      subst this
      rw [levelInv_iff_qsum]
      simp [qsum, hq]
  | cons hd tl ih =>
      intro h pl hpl
      obtain ⟨p, l0⟩ := hd
      have hhd : LevelInv l0 := h (p, l0) (List.mem_cons_self _ _)
      have htl : LevelsInv tl := fun pl hp => h pl (List.mem_cons_of_mem _ hp)
      simp only [addToLevels] at hpl
      split at hpl
      · rcases List.mem_cons.mp hpl with rfl | hpl'
        · rw [levelInv_iff_qsum]; simp [qsum, hq]
        · exact h pl hpl'
      · split at hpl
        · rcases List.mem_cons.mp hpl with rfl | hpl'
          · rw [levelInv_iff_qsum]
            rw [levelInv_iff_qsum] at hhd
            simp only []
            rw [qsum_append_live _ _ hq]
            omega
          · exact htl pl hpl'
        · rcases List.mem_cons.mp hpl with rfl | hpl'
          · exact hhd
          · exact ih htl pl hpl'

theorem add_bid_bookInv (b : OrderBook) (price : Nat) (q : Quote)
    (hb : BookInv b) (hq : q.order_id ≠ U64MAX) : BookInv (b.add_bid price q).2 := by
  have hlive := live_of_ne_sentinel q hq
  have hlev : (b.add_bid price q).2.levels = b.levels ∨
      (b.add_bid price q).2.levels = (addToLevels price q b.levels).2 := by
    simp only [OrderBook.add_bid]
    split
    · left; rfl
    · split
      · right; rfl
      · split
        · right; rfl
        · right; rfl
  unfold BookInv
  rcases hlev with hlev | hlev <;> rw [hlev]
  · exact hb
  · exact addToLevels_levelsInv price q hlive b.levels hb

theorem add_ask_bookInv (b : OrderBook) (price : Nat) (q : Quote)
    (hb : BookInv b) (hq : q.order_id ≠ U64MAX) : BookInv (b.add_ask price q).2 := by
  have hlive := live_of_ne_sentinel q hq
  have hlev : (b.add_ask price q).2.levels = b.levels ∨
      (b.add_ask price q).2.levels = (addToLevels price q b.levels).2 := by
    simp only [OrderBook.add_ask]
    split
    · left; rfl
    · split
      · right; rfl
      · split
        · right; rfl
        · right; rfl
  unfold BookInv
  rcases hlev with hlev | hlev <;> rw [hlev]
  · exact hb
  · exact addToLevels_levelsInv price q hlive b.levels hb

theorem cancel_bookInv (b : OrderBook) (price oid : Nat)
    (hb : BookInv b) (hoid : oid ≠ U64MAX) : BookInv (b.cancel price oid).2 := by
  unfold BookInv
  cases hl : lookupLevel price b.levels with
  | none => simp [OrderBook.cancel, hl]; exact hb
  | some l =>
      cases hc : cancelQuotes oid l.quotes with
      | none => simp [OrderBook.cancel, hl, hc]; exact hb
      | some r =>
          obtain ⟨v, qs'⟩ := r
          have hbook : (b.cancel price oid).2 = OrderBook.mk b.best_ask b.best_bid
              (setLevel price
                (Level.maybe_compact ⟨l.total_volume - v, qs', l.tombstone_count + 1⟩)
                b.levels) := by
            simp [OrderBook.cancel, hl, hc]
          rw [hbook]
          intro pl hpl
          rcases setLevel_mem price _ b.levels pl hpl with hmem | heq
          · exact hb pl hmem
          · rw [heq]
            apply maybe_compact_levelInv
            have hinv : LevelInv l := hb (price, l) (lookupLevel_mem _ _ _ hl)
            rw [levelInv_iff_qsum] at hinv ⊢
            have hcq := cancelQuotes_qsum oid hoid l.quotes v qs' hc
            simp only []
            omega

theorem market_buy_bookInv (b : OrderBook) (oid tv bal : Nat) (hb : BookInv b) :
    BookInv (b.execute_market_buy oid tv bal).2.2 := by
  have hrep : LevelsInv (replaceLevels
      (execute_market_txn oid tv (.MarketBuy bal) tv b.ask_levels).2.2 b.levels) :=
    replaceLevels_levelsInv _ _
      (kernel_levelsInv oid tv (.MarketBuy bal) b.ask_levels
        (ask_levels_levelsInv b hb) tv) hb
  have hlev : (b.execute_market_buy oid tv bal).2.2.levels = b.levels ∨
      (b.execute_market_buy oid tv bal).2.2.levels = replaceLevels
        (execute_market_txn oid tv (.MarketBuy bal) tv b.ask_levels).2.2 b.levels := by
    simp only [OrderBook.execute_market_buy]
    split
    · split
      · right; rfl
      · right; rfl
    · left; rfl
  unfold BookInv
  rcases hlev with hlev | hlev <;> rw [hlev]
  · exact hb
  · exact hrep

theorem market_sell_bookInv (b : OrderBook) (oid tv : Nat) (hb : BookInv b) :
    BookInv (b.execute_market_sell oid tv).2.2 := by
  have hrep : LevelsInv (replaceLevels
      (execute_market_txn oid tv .MarketSell tv b.bid_levels).2.2 b.levels) :=
    replaceLevels_levelsInv _ _
      (kernel_levelsInv oid tv .MarketSell b.bid_levels
        (bid_levels_levelsInv b hb) tv) hb
  have hlev : (b.execute_market_sell oid tv).2.2.levels = replaceLevels
      (execute_market_txn oid tv .MarketSell tv b.bid_levels).2.2 b.levels := by
    simp only [OrderBook.execute_market_sell]
    split
    · rfl
    · rfl
  unfold BookInv
  rw [hlev]
  exact hrep

theorem limit_buy_bookInv (b : OrderBook) (oid lp tv : Nat) (hb : BookInv b)
    (hoid : oid ≠ U64MAX) :
    ∀ r, b.execute_limit_buy_order oid lp tv = some r → BookInv r.2.2 := by
  intro r hr
  have hrep : BookInv (OrderBook.mk U64MAX b.best_bid (replaceLevels
      (execute_market_txn oid tv (.LimitBuy lp) tv b.ask_levels).2.2 b.levels)) :=
    replaceLevels_levelsInv _ _
      (kernel_levelsInv oid tv (.LimitBuy lp) b.ask_levels
        (ask_levels_levelsInv b hb) tv) hb
  simp only [OrderBook.execute_limit_buy_order] at hr
  split at hr
  · rename_i nbp heq
    have : r = ((execute_market_txn oid tv (.LimitBuy lp) tv b.ask_levels).1,
        (execute_market_txn oid tv (.LimitBuy lp) tv b.ask_levels).2.1,
        OrderBook.mk nbp b.best_bid (replaceLevels
          (execute_market_txn oid tv (.LimitBuy lp) tv b.ask_levels).2.2 b.levels)) := by
      simpa using hr.symm
    rw [this]
    exact hrep
  · rename_i vt nbp heq
    split at hr
    · cases hr
    · have hr' := hr
      have : r = ((execute_market_txn oid tv (.LimitBuy lp) tv b.ask_levels).1,
          (execute_market_txn oid tv (.LimitBuy lp) tv b.ask_levels).2.1,
          ((OrderBook.mk nbp b.best_bid (replaceLevels
            (execute_market_txn oid tv (.LimitBuy lp) tv b.ask_levels).2.2
            b.levels)).add_bid lp ⟨oid, tv - vt⟩).2) := by
        simpa using hr'.symm
      rw [this]
      exact add_bid_bookInv _ lp ⟨oid, tv - vt⟩ hrep hoid
  · rename_i vt heq
    split at hr
    · cases hr
    · have hr' := hr
      have : r = ((execute_market_txn oid tv (.LimitBuy lp) tv b.ask_levels).1,
          (execute_market_txn oid tv (.LimitBuy lp) tv b.ask_levels).2.1,
          ((OrderBook.mk U64MAX b.best_bid (replaceLevels
            (execute_market_txn oid tv (.LimitBuy lp) tv b.ask_levels).2.2
            b.levels)).add_bid lp ⟨oid, tv - vt⟩).2) := by
        simpa using hr'.symm
      rw [this]
      exact add_bid_bookInv _ lp ⟨oid, tv - vt⟩ hrep hoid
  · cases hr

theorem limit_sell_bookInv (b : OrderBook) (oid lp tv : Nat) (hb : BookInv b)
    (hoid : oid ≠ U64MAX) :
    ∀ r, b.execute_limit_sell_order oid lp tv = some r → BookInv r.2.2 := by
  intro r hr
  have hrep : BookInv (OrderBook.mk b.best_ask 0 (replaceLevels
      (execute_market_txn oid tv (.LimitSell lp) tv b.bid_levels).2.2 b.levels)) :=
    replaceLevels_levelsInv _ _
      (kernel_levelsInv oid tv (.LimitSell lp) b.bid_levels
        (bid_levels_levelsInv b hb) tv) hb
  simp only [OrderBook.execute_limit_sell_order] at hr
  split at hr
  · rename_i nbp heq
    have : r = ((execute_market_txn oid tv (.LimitSell lp) tv b.bid_levels).1,
        (execute_market_txn oid tv (.LimitSell lp) tv b.bid_levels).2.1,
        OrderBook.mk b.best_ask nbp (replaceLevels
          (execute_market_txn oid tv (.LimitSell lp) tv b.bid_levels).2.2 b.levels)) := by
      simpa using hr.symm
    rw [this]
    exact hrep
  · rename_i vt nbp heq
    split at hr
    · cases hr
    · have hr' := hr
      have : r = ((execute_market_txn oid tv (.LimitSell lp) tv b.bid_levels).1,
          (execute_market_txn oid tv (.LimitSell lp) tv b.bid_levels).2.1,
          ((OrderBook.mk b.best_ask nbp (replaceLevels
            (execute_market_txn oid tv (.LimitSell lp) tv b.bid_levels).2.2
            b.levels)).add_ask lp ⟨oid, tv - vt⟩).2) := by
        simpa using hr'.symm
      rw [this]
      exact add_ask_bookInv _ lp ⟨oid, tv - vt⟩ hrep hoid
  · rename_i vt heq
    split at hr
    · cases hr
    · have hr' := hr
      have : r = ((execute_market_txn oid tv (.LimitSell lp) tv b.bid_levels).1,
          (execute_market_txn oid tv (.LimitSell lp) tv b.bid_levels).2.1,
          ((OrderBook.mk b.best_ask 0 (replaceLevels
            (execute_market_txn oid tv (.LimitSell lp) tv b.bid_levels).2.2
            b.levels)).add_ask lp ⟨oid, tv - vt⟩).2) := by
        simpa using hr'.symm
      rw [this]
      exact add_ask_bookInv _ lp ⟨oid, tv - vt⟩ hrep hoid
  · cases hr

theorem bookInv_of_all (b : OrderBook)
    (h : (b.levels.all (fun pl => pl.2.total_volume == qsum pl.2.quotes)) = true) :
    BookInv b := by
  intro pl hpl
  rw [levelInv_iff_qsum]
  have := List.all_eq_true.mp h pl hpl
  simpa using this

/-- Claim C2: for every book state satisfying the level invariant — each
level's `total_volume` equals the sum of the volumes of its non-tombstone
quotes — the invariant is preserved by `add_bid`, `add_ask`, `cancel`, and by
every execution path of the matching kernel as driven by `execute_market_buy`,
`execute_market_sell`, `execute_limit_buy_order` and
`execute_limit_sell_order` (level-exhausting clears, level-terminating
partial consumption, and compaction), for non-sentinel order ids. -/
theorem C2_total_volume_invariant (b : OrderBook) (price : Nat) (q : Quote)
    (oid tv bal lp : Nat) (hb : BookInv b)
    (hq : q.order_id ≠ U64MAX) (hoid : oid ≠ U64MAX) :
    BookInv (b.add_bid price q).2 ∧
    BookInv (b.add_ask price q).2 ∧
    BookInv (b.cancel price oid).2 ∧
    BookInv (b.execute_market_buy oid tv bal).2.2 ∧
    BookInv (b.execute_market_sell oid tv).2.2 ∧
    (∀ r, b.execute_limit_buy_order oid lp tv = some r → BookInv r.2.2) ∧
    (∀ r, b.execute_limit_sell_order oid lp tv = some r → BookInv r.2.2) :=
  ⟨add_bid_bookInv b price q hb hq,
   add_ask_bookInv b price q hb hq,
   cancel_bookInv b price oid hb hoid,
   market_buy_bookInv b oid tv bal hb,
   market_sell_bookInv b oid tv hb,
   limit_buy_bookInv b oid lp tv hb hoid,
   limit_sell_bookInv b oid lp tv hb hoid⟩

/-- Witness for C2 on a concrete two-sided book. -/
theorem C2_total_volume_invariant_witness :
    BookInv (((OrderBook.new.add_ask 20 ⟨1, 10⟩).2.add_bid 10 ⟨2, 7⟩).2.add_bid
      10 ⟨3, 4⟩).2 ∧
    BookInv ((((OrderBook.new.add_ask 20 ⟨1, 10⟩).2.add_bid 10 ⟨2, 7⟩).2.add_bid
      10 ⟨3, 4⟩).2.execute_market_sell 9 8).2.2 :=
  ⟨(C2_total_volume_invariant
      ((OrderBook.new.add_ask 20 ⟨1, 10⟩).2.add_bid 10 ⟨2, 7⟩).2 10 ⟨3, 4⟩ 9 8 100 15
      (bookInv_of_all _ (by decide)) (by decide) (by decide)).1,
   (C2_total_volume_invariant
      (((OrderBook.new.add_ask 20 ⟨1, 10⟩).2.add_bid 10 ⟨2, 7⟩).2.add_bid 10 ⟨3, 4⟩).2
      10 ⟨3, 4⟩ 9 8 100 15
      (bookInv_of_all _ (by decide)) (by decide) (by decide)).2.2.2.2.1⟩

/-! ## Claim C3: the uncrossed-book invariant -/

/-- The C3 invariant: the book is uncrossed at rest, the ask sentinel is in
range, and every stored price is a non-sentinel `u64` value. -/
def GoodBook (b : OrderBook) : Prop :=
  b.best_bid < b.best_ask ∧ b.best_ask ≤ U64MAX ∧
  ∀ p ∈ b.levels.map Prod.fst, 0 < p ∧ p < U64MAX

theorem addToLevels_keys (price : Nat) (q : Quote) :
    ∀ (ls : List (Nat × Level)) (p : Nat),
      p ∈ (addToLevels price q ls).2.map Prod.fst →
      p = price ∨ p ∈ ls.map Prod.fst := by
  intro ls
  induction ls with
  | nil => intro p hp; simp [addToLevels] at hp; left; exact hp
  | cons hd tl ih =>
      intro p hp
      obtain ⟨p0, l0⟩ := hd
      simp only [addToLevels] at hp
      split at hp
      · simp only [List.map_cons, List.mem_cons] at hp ⊢
        tauto
      · split at hp
        · simp only [List.map_cons, List.mem_cons] at hp ⊢
          tauto
        · simp only [List.map_cons, List.mem_cons] at hp ⊢
          rcases hp with rfl | hp
          · tauto
          · rcases ih p hp with h | h
            · tauto
            · tauto

theorem setLevel_keys (price : Nat) (l' : Level) :
    ∀ ls : List (Nat × Level),
      (setLevel price l' ls).map Prod.fst = ls.map Prod.fst := by
  intro ls
  induction ls with
  | nil => rfl
  | cons hd tl ih =>
      obtain ⟨p, l0⟩ := hd
      simp only [setLevel]
      split
      · simp
      · simp [ih]

theorem replaceLevels_keys (upd ls : List (Nat × Level)) :
    (replaceLevels upd ls).map Prod.fst = ls.map Prod.fst := by
  induction ls with
  | nil => rfl
  | cons hd tl ih =>
      simp only [replaceLevels, List.map_cons] at ih ⊢
      cases hlk : lookupLevel hd.1 upd with
      | none => simp [hlk, ih]
      | some l' => simp [hlk, ih]

theorem kernel_keys (oid tv : Nat) (tgt : OrderTarget) :
    ∀ (ls : List (Nat × Level)) (rem : Nat),
      (execute_market_txn oid tv tgt rem ls).2.2.map Prod.fst = ls.map Prod.fst := by
  intro ls
  induction ls with
  | nil => intro rem; simp [execute_market_txn]
  | cons hd tl ih =>
      intro rem
      obtain ⟨price, level⟩ := hd
      simp only [execute_market_txn]
      split
      · simp
      · split
        · simp
        · split
          · simpa using ih _
          · simp

theorem kernel_filled_mem (oid tv : Nat) (tgt : OrderTarget) :
    ∀ (ls : List (Nat × Level)) (rem p : Nat),
      (execute_market_txn oid tv tgt rem ls).1 = .Filled p → p ∈ ls.map Prod.fst := by
  intro ls
  induction ls with
  | nil => intro rem p h; simp [execute_market_txn] at h
  | cons hd tl ih =>
      intro rem p h
      obtain ⟨price, level⟩ := hd
      simp only [execute_market_txn] at h
      split at h
      · simp at h
      · split at h
        · simp only [TxnOutcome.Filled.injEq] at h
          simp [h]
        · split at h
          · have := ih _ p (by simpa using h)
            simp [this]
          · simp only [TxnOutcome.Filled.injEq] at h
            simp [h]

theorem kernel_partial_mem (oid tv : Nat) (tgt : OrderTarget) :
    ∀ (ls : List (Nat × Level)) (rem vt p : Nat),
      (execute_market_txn oid tv tgt rem ls).1 = .PartiallyFilled vt p →
      p ∈ ls.map Prod.fst := by
  intro ls
  induction ls with
  | nil => intro rem vt p h; simp [execute_market_txn] at h
  | cons hd tl ih =>
      intro rem vt p h
      obtain ⟨price, level⟩ := hd
      simp only [execute_market_txn] at h
      split at h
      · simp only [TxnOutcome.PartiallyFilled.injEq] at h
        simp [h.2]
      · split at h
        · simp at h
        · split at h
          · have := ih _ vt p (by simpa using h)
            simp [this]
          · simp at h

theorem kernel_partial_stop (oid tv : Nat) (tgt : OrderTarget) :
    ∀ (ls : List (Nat × Level)) (rem vt p : Nat),
      (execute_market_txn oid tv tgt rem ls).1 = .PartiallyFilled vt p →
      priceStop tgt p = true := by
  intro ls
  induction ls with
  | nil => intro rem vt p h; simp [execute_market_txn] at h
  | cons hd tl ih =>
      intro rem vt p h
      obtain ⟨price, level⟩ := hd
      simp only [execute_market_txn] at h
      split at h
      · rename_i hstop
        simp only [TxnOutcome.PartiallyFilled.injEq] at h
        rw [← h.2]
        exact hstop
      · split at h
        · simp at h
        · split at h
          · exact ih _ vt p (by simpa using h)
          · simp at h

theorem ask_keys_spec (b : OrderBook) (p : Nat) (hp : p ∈ b.ask_levels.map Prod.fst) :
    b.best_ask ≤ p ∧ p ∈ b.levels.map Prod.fst := by
  rw [List.mem_map] at hp
  obtain ⟨pl, hpl, rfl⟩ := hp
  rw [OrderBook.ask_levels] at hpl
  refine ⟨by simpa using List.of_mem_filter hpl, ?_⟩
  exact List.mem_map.mpr ⟨pl, List.mem_of_mem_filter hpl, rfl⟩

theorem bid_keys_spec (b : OrderBook) (p : Nat) (hp : p ∈ b.bid_levels.map Prod.fst) :
    p ≤ b.best_bid ∧ p ∈ b.levels.map Prod.fst := by
  rw [List.mem_map] at hp
  obtain ⟨pl, hpl, rfl⟩ := hp
  rw [OrderBook.bid_levels, List.mem_reverse] at hpl
  refine ⟨by simpa using List.of_mem_filter hpl, ?_⟩
  exact List.mem_map.mpr ⟨pl, List.mem_of_mem_filter hpl, rfl⟩

theorem add_bid_goodBook (b : OrderBook) (price : Nat) (q : Quote) (hb : GoodBook b)
    (h1 : 0 < price) (h2 : price < U64MAX) : GoodBook (b.add_bid price q).2 := by
  obtain ⟨hba, hmax, hkeys⟩ := hb
  simp only [OrderBook.add_bid]
  split
  · exact ⟨hba, hmax, hkeys⟩
  · rename_i hc
    have hkeys' : ∀ p ∈ (addToLevels price q b.levels).2.map Prod.fst,
        0 < p ∧ p < U64MAX := by
      intro p hp
      rcases addToLevels_keys price q b.levels p hp with rfl | hp'
      · exact ⟨h1, h2⟩
      · exact hkeys p hp'
    split
    · exact ⟨(by omega : price < b.best_ask), hmax, hkeys'⟩
    · split
      · exact ⟨hba, hmax, hkeys'⟩
      · exact ⟨hba, hmax, hkeys'⟩

theorem add_ask_goodBook (b : OrderBook) (price : Nat) (q : Quote) (hb : GoodBook b)
    (h2 : price < U64MAX) : GoodBook (b.add_ask price q).2 := by
  obtain ⟨hba, hmax, hkeys⟩ := hb
  simp only [OrderBook.add_ask]
  split
  · exact ⟨hba, hmax, hkeys⟩
  · rename_i hc
    have h1 : 0 < price := by omega
    have hkeys' : ∀ p ∈ (addToLevels price q b.levels).2.map Prod.fst,
        0 < p ∧ p < U64MAX := by
      intro p hp
      rcases addToLevels_keys price q b.levels p hp with rfl | hp'
      · exact ⟨h1, h2⟩
      · exact hkeys p hp'
    split
    · exact ⟨(by omega : b.best_bid < price), le_of_lt h2, hkeys'⟩
    · split
      · exact ⟨hba, hmax, hkeys'⟩
      · exact ⟨hba, hmax, hkeys'⟩

theorem cancel_goodBook (b : OrderBook) (price oid : Nat) (hb : GoodBook b) :
    GoodBook (b.cancel price oid).2 := by
  obtain ⟨hba, hmax, hkeys⟩ := hb
  cases hl : lookupLevel price b.levels with
  | none =>
      have hε : (b.cancel price oid).2 = b := by simp [OrderBook.cancel, hl]
      rw [hε]
      exact ⟨hba, hmax, hkeys⟩
  | some l =>
      cases hc : cancelQuotes oid l.quotes with
      | none =>
          have hε : (b.cancel price oid).2 = b := by simp [OrderBook.cancel, hl, hc]
          rw [hε]
          exact ⟨hba, hmax, hkeys⟩
      | some r =>
          obtain ⟨v, qs'⟩ := r
          have hbook : (b.cancel price oid).2 = OrderBook.mk b.best_ask b.best_bid
              (setLevel price
                (Level.maybe_compact ⟨l.total_volume - v, qs', l.tombstone_count + 1⟩)
                b.levels) := by
            simp [OrderBook.cancel, hl, hc]
          rw [hbook]
          refine ⟨hba, hmax, ?_⟩
          intro p hp
          rw [setLevel_keys] at hp
          exact hkeys p hp

theorem market_buy_goodBook (b : OrderBook) (oid tv bal : Nat) (hb : GoodBook b) :
    GoodBook (b.execute_market_buy oid tv bal).2.2 := by
  obtain ⟨hba, hmax, hkeys⟩ := hb
  simp only [OrderBook.execute_market_buy]
  split
  · have hkeys' : ∀ p ∈ (replaceLevels
        (execute_market_txn oid tv (.MarketBuy bal) tv b.ask_levels).2.2
        b.levels).map Prod.fst, 0 < p ∧ p < U64MAX := by
      rw [replaceLevels_keys]
      exact hkeys
    split
    · rename_i nbp heq
      have hmem := kernel_filled_mem oid tv (.MarketBuy bal) b.ask_levels tv nbp heq
      obtain ⟨hge, hmemk⟩ := ask_keys_spec b nbp hmem
      exact ⟨lt_of_lt_of_le hba hge, le_of_lt (hkeys nbp hmemk).2, hkeys'⟩
    · exact ⟨lt_of_lt_of_le hba hmax, le_refl _, hkeys'⟩
  · exact ⟨hba, hmax, hkeys⟩

theorem market_sell_goodBook (b : OrderBook) (oid tv : Nat) (hb : GoodBook b) :
    GoodBook (b.execute_market_sell oid tv).2.2 := by
  obtain ⟨hba, hmax, hkeys⟩ := hb
  simp only [OrderBook.execute_market_sell]
  have hkeys' : ∀ p ∈ (replaceLevels
      (execute_market_txn oid tv .MarketSell tv b.bid_levels).2.2
      b.levels).map Prod.fst, 0 < p ∧ p < U64MAX := by
    rw [replaceLevels_keys]
    exact hkeys
  split
  · rename_i nbp heq
    have hmem := kernel_filled_mem oid tv .MarketSell b.bid_levels tv nbp heq
    obtain ⟨hle, hmemk⟩ := bid_keys_spec b nbp hmem
    exact ⟨lt_of_le_of_lt hle hba, hmax, hkeys'⟩
  · exact ⟨Nat.lt_of_le_of_lt (Nat.zero_le _) hba, hmax, hkeys'⟩

theorem limit_buy_goodBook (b : OrderBook) (oid lp tv : Nat) (hb : GoodBook b)
    (hlp1 : 0 < lp) (hlp2 : lp < U64MAX) :
    ∀ r, b.execute_limit_buy_order oid lp tv = some r → GoodBook r.2.2 := by
  intro r hr
  obtain ⟨hba, hmax, hkeys⟩ := hb
  have hkeys' : ∀ p ∈ (replaceLevels
      (execute_market_txn oid tv (.LimitBuy lp) tv b.ask_levels).2.2
      b.levels).map Prod.fst, 0 < p ∧ p < U64MAX := by
    rw [replaceLevels_keys]
    exact hkeys
  simp only [OrderBook.execute_limit_buy_order] at hr
  split at hr
  · rename_i nbp heq
    have hmem := kernel_filled_mem oid tv (.LimitBuy lp) b.ask_levels tv nbp heq
    obtain ⟨hge, hmemk⟩ := ask_keys_spec b nbp hmem
    have : r = ((execute_market_txn oid tv (.LimitBuy lp) tv b.ask_levels).1,
        (execute_market_txn oid tv (.LimitBuy lp) tv b.ask_levels).2.1,
        OrderBook.mk nbp b.best_bid (replaceLevels
          (execute_market_txn oid tv (.LimitBuy lp) tv b.ask_levels).2.2 b.levels)) := by
      simpa using hr.symm
    rw [this]
    exact ⟨lt_of_lt_of_le hba hge, le_of_lt (hkeys nbp hmemk).2, hkeys'⟩
  · rename_i vt nbp heq
    split at hr
    · cases hr
    · have hmem := kernel_partial_mem oid tv (.LimitBuy lp) b.ask_levels tv vt nbp heq
      obtain ⟨hge, hmemk⟩ := ask_keys_spec b nbp hmem
      have hgood1 : GoodBook (OrderBook.mk nbp b.best_bid (replaceLevels
          (execute_market_txn oid tv (.LimitBuy lp) tv b.ask_levels).2.2 b.levels)) :=
        ⟨lt_of_lt_of_le hba hge, le_of_lt (hkeys nbp hmemk).2, hkeys'⟩
      have : r = ((execute_market_txn oid tv (.LimitBuy lp) tv b.ask_levels).1,
          (execute_market_txn oid tv (.LimitBuy lp) tv b.ask_levels).2.1,
          ((OrderBook.mk nbp b.best_bid (replaceLevels
            (execute_market_txn oid tv (.LimitBuy lp) tv b.ask_levels).2.2
            b.levels)).add_bid lp ⟨oid, tv - vt⟩).2) := by
        simpa using hr.symm
      rw [this]
      exact add_bid_goodBook _ lp ⟨oid, tv - vt⟩ hgood1 hlp1 hlp2
  · rename_i vt heq
    split at hr
    · cases hr
    · have hgood1 : GoodBook (OrderBook.mk U64MAX b.best_bid (replaceLevels
          (execute_market_txn oid tv (.LimitBuy lp) tv b.ask_levels).2.2 b.levels)) :=
        ⟨lt_of_lt_of_le hba hmax, le_refl _, hkeys'⟩
      have : r = ((execute_market_txn oid tv (.LimitBuy lp) tv b.ask_levels).1,
          (execute_market_txn oid tv (.LimitBuy lp) tv b.ask_levels).2.1,
          ((OrderBook.mk U64MAX b.best_bid (replaceLevels
            (execute_market_txn oid tv (.LimitBuy lp) tv b.ask_levels).2.2
            b.levels)).add_bid lp ⟨oid, tv - vt⟩).2) := by
        simpa using hr.symm
      rw [this]
      exact add_bid_goodBook _ lp ⟨oid, tv - vt⟩ hgood1 hlp1 hlp2
  · cases hr

theorem limit_sell_goodBook (b : OrderBook) (oid lp tv : Nat) (hb : GoodBook b)
    (hlp2 : lp < U64MAX) :
    ∀ r, b.execute_limit_sell_order oid lp tv = some r → GoodBook r.2.2 := by
  intro r hr
  obtain ⟨hba, hmax, hkeys⟩ := hb
  have hkeys' : ∀ p ∈ (replaceLevels
      (execute_market_txn oid tv (.LimitSell lp) tv b.bid_levels).2.2
      b.levels).map Prod.fst, 0 < p ∧ p < U64MAX := by
    rw [replaceLevels_keys]
    exact hkeys
  simp only [OrderBook.execute_limit_sell_order] at hr
  split at hr
  · rename_i nbp heq
    have hmem := kernel_filled_mem oid tv (.LimitSell lp) b.bid_levels tv nbp heq
    obtain ⟨hle, hmemk⟩ := bid_keys_spec b nbp hmem
    have : r = ((execute_market_txn oid tv (.LimitSell lp) tv b.bid_levels).1,
        (execute_market_txn oid tv (.LimitSell lp) tv b.bid_levels).2.1,
        OrderBook.mk b.best_ask nbp (replaceLevels
          (execute_market_txn oid tv (.LimitSell lp) tv b.bid_levels).2.2 b.levels)) := by
      simpa using hr.symm
    rw [this]
    exact ⟨lt_of_le_of_lt hle hba, hmax, hkeys'⟩
  · rename_i vt nbp heq
    split at hr
    · cases hr
    · have hmem := kernel_partial_mem oid tv (.LimitSell lp) b.bid_levels tv vt nbp heq
      obtain ⟨hle, hmemk⟩ := bid_keys_spec b nbp hmem
      have hgood1 : GoodBook (OrderBook.mk b.best_ask nbp (replaceLevels
          (execute_market_txn oid tv (.LimitSell lp) tv b.bid_levels).2.2 b.levels)) :=
        ⟨lt_of_le_of_lt hle hba, hmax, hkeys'⟩
      have : r = ((execute_market_txn oid tv (.LimitSell lp) tv b.bid_levels).1,
          (execute_market_txn oid tv (.LimitSell lp) tv b.bid_levels).2.1,
          ((OrderBook.mk b.best_ask nbp (replaceLevels
            (execute_market_txn oid tv (.LimitSell lp) tv b.bid_levels).2.2
            b.levels)).add_ask lp ⟨oid, tv - vt⟩).2) := by
        simpa using hr.symm
      rw [this]
      exact add_ask_goodBook _ lp ⟨oid, tv - vt⟩ hgood1 hlp2
  · rename_i vt heq
    split at hr
    · cases hr
    · have hgood1 : GoodBook (OrderBook.mk b.best_ask 0 (replaceLevels
          (execute_market_txn oid tv (.LimitSell lp) tv b.bid_levels).2.2 b.levels)) :=
        ⟨Nat.lt_of_le_of_lt (Nat.zero_le _) hba, hmax, hkeys'⟩
      have : r = ((execute_market_txn oid tv (.LimitSell lp) tv b.bid_levels).1,
          (execute_market_txn oid tv (.LimitSell lp) tv b.bid_levels).2.1,
          ((OrderBook.mk b.best_ask 0 (replaceLevels
            (execute_market_txn oid tv (.LimitSell lp) tv b.bid_levels).2.2
            b.levels)).add_ask lp ⟨oid, tv - vt⟩).2) := by
        simpa using hr.symm
      rw [this]
      exact add_ask_goodBook _ lp ⟨oid, tv - vt⟩ hgood1 hlp2
  · cases hr

/-- Claim C3: starting from `new()` (`best_ask = u64::MAX`, `best_bid = 0`),
under the precondition that submitted prices are strictly between `0` and
`u64::MAX`, the invariant `best_bid < best_ask` (together with the price-range
side conditions that make it inductive) holds initially and is preserved by
`add_bid`, `add_ask`, `cancel`, `execute_market_buy`, `execute_market_sell`,
`execute_limit_buy_order` and `execute_limit_sell_order`. -/
theorem C3_uncrossed_invariant (b : OrderBook) (price : Nat) (q : Quote)
    (oid tv bal lp : Nat) (hb : GoodBook b)
    (hp1 : 0 < price) (hp2 : price < U64MAX) (hlp1 : 0 < lp) (hlp2 : lp < U64MAX) :
    GoodBook OrderBook.new ∧
    GoodBook (b.add_bid price q).2 ∧
    GoodBook (b.add_ask price q).2 ∧
    GoodBook (b.cancel price oid).2 ∧
    GoodBook (b.execute_market_buy oid tv bal).2.2 ∧
    GoodBook (b.execute_market_sell oid tv).2.2 ∧
    (∀ r, b.execute_limit_buy_order oid lp tv = some r → GoodBook r.2.2) ∧
    (∀ r, b.execute_limit_sell_order oid lp tv = some r → GoodBook r.2.2) :=
  ⟨⟨by decide, le_refl _, by intro p hp; simp [OrderBook.new] at hp⟩,
   add_bid_goodBook b price q hb hp1 hp2,
   add_ask_goodBook b price q hb hp2,
   cancel_goodBook b price oid hb,
   market_buy_goodBook b oid tv bal hb,
   market_sell_goodBook b oid tv hb,
   limit_buy_goodBook b oid lp tv hb hlp1 hlp2,
   limit_sell_goodBook b oid lp tv hb hlp2⟩

/-- Witness for C3 on a concrete two-sided book. -/
theorem C3_uncrossed_invariant_witness :
    GoodBook (((OrderBook.new.add_ask 20 ⟨1, 10⟩).2.add_bid 10 ⟨2, 7⟩).2.add_bid
      15 ⟨3, 4⟩).2 ∧
    GoodBook ((((OrderBook.new.add_ask 20 ⟨1, 10⟩).2.add_bid 10 ⟨2, 7⟩).2.execute_market_buy
      9 10 1000).2.2) :=
  ⟨(C3_uncrossed_invariant ((OrderBook.new.add_ask 20 ⟨1, 10⟩).2.add_bid 10 ⟨2, 7⟩).2
      15 ⟨3, 4⟩ 9 10 1000 12
      ⟨by decide, by decide, by decide⟩
      (by decide) (by decide) (by decide) (by decide)).2.1,
   (C3_uncrossed_invariant ((OrderBook.new.add_ask 20 ⟨1, 10⟩).2.add_bid 10 ⟨2, 7⟩).2
      15 ⟨3, 4⟩ 9 10 1000 12
      ⟨by decide, by decide, by decide⟩
      (by decide) (by decide) (by decide) (by decide)).2.2.2.2.1⟩

/-! ## Claim C9: residual insertion never crosses -/

theorem add_bid_crossed_iff (x : OrderBook) (price : Nat) (q : Quote) :
    (x.add_bid price q).1 = .CrossedSpread ↔ x.best_ask ≤ price := by
  simp only [OrderBook.add_bid]
  split
  · rename_i h; simp [h]
  · rename_i h
    split
    · simp [h]
    · split
      · simp [h]
      · simp [h]

theorem add_ask_crossed_iff (x : OrderBook) (price : Nat) (q : Quote) :
    (x.add_ask price q).1 = .CrossedSpread ↔ price ≤ x.best_bid := by
  simp only [OrderBook.add_ask]
  split
  · rename_i h; simp [h]
  · rename_i h
    split
    · simp [h]
    · split
      · simp [h]
      · simp [h]

/-- Claim C9: for every book state and every limit order with a non-sentinel
price (`0 < limit_price < u64::MAX`), the residual insertion performed by
`execute_limit_buy_order` / `execute_limit_sell_order` after a
`PartiallyFilled` or `MarketVolumeExhausted` outcome never sees
`CrossedSpread`, so the `assert_placed` panic branch (modelled as `none`) is
unreachable and both limit executions always return `some`. -/
theorem C9_assert_placed_unreachable (b : OrderBook) (oid lp tv : Nat)
    (hlp1 : 0 < lp) (hlp2 : lp < U64MAX) :
    (b.execute_limit_buy_order oid lp tv).isSome ∧
    (b.execute_limit_sell_order oid lp tv).isSome := by
  constructor
  · simp only [OrderBook.execute_limit_buy_order]
    split
    · simp
    · rename_i vt nbp heq
      have hstop := kernel_partial_stop oid tv (.LimitBuy lp) b.ask_levels tv vt nbp heq
      have hlt : lp < nbp := by simpa [priceStop] using hstop
      have hne : (((OrderBook.mk nbp b.best_bid (replaceLevels
          (execute_market_txn oid tv (.LimitBuy lp) tv b.ask_levels).2.2
          b.levels))).add_bid lp ⟨oid, tv - vt⟩).1 ≠ .CrossedSpread := by
        intro hcr
        rw [add_bid_crossed_iff] at hcr
        have hle' : nbp ≤ lp := hcr
        omega
      rw [if_neg hne]
      simp
    · rename_i vt heq
      have hne : (((OrderBook.mk U64MAX b.best_bid (replaceLevels
          (execute_market_txn oid tv (.LimitBuy lp) tv b.ask_levels).2.2
          b.levels))).add_bid lp ⟨oid, tv - vt⟩).1 ≠ .CrossedSpread := by
        intro hcr
        rw [add_bid_crossed_iff] at hcr
        have hle' : U64MAX ≤ lp := hcr
        exact absurd (lt_of_lt_of_le hlp2 hle') (lt_irrefl _)
      rw [if_neg hne]
      simp
    · rename_i heq
      exact absurd heq (kernel_ne_failed oid tv (.LimitBuy lp) b.ask_levels tv)
  · simp only [OrderBook.execute_limit_sell_order]
    split
    · simp
    · rename_i vt nbp heq
      have hstop := kernel_partial_stop oid tv (.LimitSell lp) b.bid_levels tv vt nbp heq
      have hlt : nbp < lp := by simpa [priceStop] using hstop
      have hne : (((OrderBook.mk b.best_ask nbp (replaceLevels
          (execute_market_txn oid tv (.LimitSell lp) tv b.bid_levels).2.2
          b.levels))).add_ask lp ⟨oid, tv - vt⟩).1 ≠ .CrossedSpread := by
        intro hcr
        rw [add_ask_crossed_iff] at hcr
        have hle' : lp ≤ nbp := hcr
        omega
      rw [if_neg hne]
      simp
    · rename_i vt heq
      have hne : (((OrderBook.mk b.best_ask 0 (replaceLevels
          (execute_market_txn oid tv (.LimitSell lp) tv b.bid_levels).2.2
          b.levels))).add_ask lp ⟨oid, tv - vt⟩).1 ≠ .CrossedSpread := by
        intro hcr
        rw [add_ask_crossed_iff] at hcr
        have hle' : lp ≤ 0 := hcr
        omega
      rw [if_neg hne]
      simp
    · rename_i heq
      exact absurd heq (kernel_ne_failed oid tv (.LimitSell lp) b.bid_levels tv)

/-- Witness for C9 on a concrete book where both limit orders leave a
residual. -/
theorem C9_assert_placed_unreachable_witness :
    (((OrderBook.new.add_ask 20 ⟨1, 10⟩).2.execute_limit_buy_order 7 15 5).isSome) ∧
    (((OrderBook.new.add_ask 20 ⟨1, 10⟩).2.execute_limit_sell_order 7 15 5).isSome) :=
  C9_assert_placed_unreachable (OrderBook.new.add_ask 20 ⟨1, 10⟩).2 7 15 5
    (by decide) (by decide)

/-! ## Claim C8: price-time priority of emitted matches -/

/-- The (price, maker id) key of a match. -/
def matchKey (m : Match) : Nat × Nat := (m.price, m.maker_order_id)

/-- The canonical price-time flattening of a list of levels: for each level in
iteration order, its live quotes in FIFO (insertion) order, keyed by
`(price, order_id)`. -/
def priceTimeOrder (pls : List (Nat × Level)) : List (Nat × Nat) :=
  (pls.map (fun pl => pl.2.iter_quotes.map (fun q => (pl.1, q.order_id)))).flatten

/-- Books built from `new()` by any sequence of `add_bid` / `add_ask`. -/
inductive BuildsBook : OrderBook → Prop
  | base : BuildsBook OrderBook.new
  | bid (b : OrderBook) (price : Nat) (q : Quote) :
      BuildsBook b → BuildsBook (b.add_bid price q).2
  | ask (b : OrderBook) (price : Nat) (q : Quote) :
      BuildsBook b → BuildsBook (b.add_ask price q).2

theorem priceTimeOrder_cons (pl : Nat × Level) (tl : List (Nat × Level)) :
    priceTimeOrder (pl :: tl) =
      pl.2.iter_quotes.map (fun q => (pl.1, q.order_id)) ++ priceTimeOrder tl := by
  simp [priceTimeOrder]

theorem mem_priceTimeOrder :
    ∀ (pls : List (Nat × Level)) (x : Nat × Nat),
      x ∈ priceTimeOrder pls → x.1 ∈ pls.map Prod.fst := by
  intro pls
  induction pls with
  | nil => intro x hx; simp [priceTimeOrder] at hx
  | cons hd tl ih =>
      intro x hx
      rw [priceTimeOrder_cons] at hx
      rcases List.mem_append.mp hx with hx | hx
      · rw [List.mem_map] at hx
        obtain ⟨q, _, rfl⟩ := hx
        simp
      · simp only [List.map_cons, List.mem_cons]
        exact Or.inr (ih x hx)

theorem pairwise_const_fst (p : Nat) (l : List Quote) :
    List.Pairwise (fun a b : Nat × Nat => a.1 ≤ b.1)
      (l.map (fun q => (p, q.order_id))) := by
  induction l with
  | nil => simp
  | cons q qs ih =>
      rw [List.map_cons, List.pairwise_cons]
      refine ⟨?_, ih⟩
      intro x hx
      rw [List.mem_map] at hx
      obtain ⟨q0, _, rfl⟩ := hx
      exact le_refl _

theorem pairwise_const_fst_ge (p : Nat) (l : List Quote) :
    List.Pairwise (fun a b : Nat × Nat => b.1 ≤ a.1)
      (l.map (fun q => (p, q.order_id))) := by
  induction l with
  | nil => simp
  | cons q qs ih =>
      rw [List.map_cons, List.pairwise_cons]
      refine ⟨?_, ih⟩
      intro x hx
      rw [List.mem_map] at hx
      obtain ⟨q0, _, rfl⟩ := hx
      exact le_refl _

theorem priceTimeOrder_pairwise_asc :
    ∀ pls : List (Nat × Level), List.Pairwise (· < ·) (pls.map Prod.fst) →
      List.Pairwise (fun a b : Nat × Nat => a.1 ≤ b.1) (priceTimeOrder pls) := by
  intro pls
  induction pls with
  | nil => intro _; simp [priceTimeOrder]
  | cons hd tl ih =>
      intro h
      rw [List.map_cons, List.pairwise_cons] at h
      obtain ⟨hall, htl⟩ := h
      rw [priceTimeOrder_cons]
      apply List.pairwise_append.mpr
      refine ⟨pairwise_const_fst _ _, ih htl, ?_⟩
      intro a ha b hb
      rw [List.mem_map] at ha
      obtain ⟨q0, _, rfl⟩ := ha
      exact le_of_lt (hall b.1 (mem_priceTimeOrder tl b hb))

theorem priceTimeOrder_pairwise_desc :
    ∀ pls : List (Nat × Level),
      List.Pairwise (fun a b : Nat => b < a) (pls.map Prod.fst) →
      List.Pairwise (fun a b : Nat × Nat => b.1 ≤ a.1) (priceTimeOrder pls) := by
  intro pls
  induction pls with
  | nil => intro _; simp [priceTimeOrder]
  | cons hd tl ih =>
      intro h
      rw [List.map_cons, List.pairwise_cons] at h
      obtain ⟨hall, htl⟩ := h
      rw [priceTimeOrder_cons]
      apply List.pairwise_append.mpr
      refine ⟨pairwise_const_fst_ge _ _, ih htl, ?_⟩
      intro a ha b hb
      rw [List.mem_map] at ha
      obtain ⟨q0, _, rfl⟩ := ha
      exact le_of_lt (hall b.1 (mem_priceTimeOrder tl b hb))

theorem fillQuotes_sublist (oid price : Nat) :
    ∀ (qs : List Quote) (rem : Nat),
      List.Sublist ((fillQuotes oid price rem qs).2.1.map matchKey)
        ((qs.filter (fun q => !q.is_tombstone)).map (fun q => (price, q.order_id))) := by
  intro qs
  induction qs with
  | nil => intro rem; simp [fillQuotes]
  | cons q qs ih =>
      intro rem
      simp only [fillQuotes]
      cases ht : q.is_tombstone with
      | true =>
          simp only [ht, if_true, List.filter_cons, Bool.not_true, Bool.false_eq_true,
            if_false]
          exact ih rem
      | false =>
          simp only [ht, Bool.false_eq_true, if_false, List.filter_cons, Bool.not_false,
            if_true, List.map_cons]
          by_cases h1 : rem < q.volume
          · simp only [if_pos h1, List.map_cons, List.map_nil, matchKey]
            exact List.Sublist.cons₂ _ (List.nil_sublist _)
          · by_cases h2 : rem = q.volume
            · simp only [if_neg h1, if_pos h2, List.map_cons, List.map_nil, matchKey]
              exact List.Sublist.cons₂ _ (List.nil_sublist _)
            · simp only [if_neg h1, if_neg h2, List.map_cons, matchKey]
              exact List.Sublist.cons₂ _ (ih (rem - q.volume))

theorem kernel_sublist (oid tv : Nat) (tgt : OrderTarget) :
    ∀ (ls : List (Nat × Level)) (rem : Nat),
      List.Sublist ((execute_market_txn oid tv tgt rem ls).2.1.map matchKey)
        (priceTimeOrder ls) := by
  intro ls
  induction ls with
  | nil => intro rem; simp [execute_market_txn, priceTimeOrder]
  | cons hd tl ih =>
      intro rem
      obtain ⟨price, level⟩ := hd
      rw [priceTimeOrder_cons]
      simp only [execute_market_txn]
      split
      · simp
      · split
        · simp
        · split
          · simp only [List.map_append]
            apply List.Sublist.append
            · rw [List.map_map]
              have heq : level.iter_quotes.map
                  (matchKey ∘ (fun q => (⟨q.order_id, oid, price, q.volume,
                    if rem - level.total_volume = 0 then .BothFilled
                    else .MakerFilled⟩ : Match))) =
                  level.iter_quotes.map (fun q => (price, q.order_id)) := by
                apply List.map_congr_left
                intro q _
                rfl
              rw [heq]
            · exact ih _
          · exact List.Sublist.trans (fillQuotes_sublist oid price level.quotes rem)
              (List.sublist_append_left _ _)

theorem addToLevels_sorted (price : Nat) (q : Quote) :
    ∀ ls : List (Nat × Level), List.Pairwise (· < ·) (ls.map Prod.fst) →
      List.Pairwise (· < ·) ((addToLevels price q ls).2.map Prod.fst) := by
  intro ls
  induction ls with
  | nil => intro _; simp [addToLevels]
  | cons hd tl ih =>
      intro h
      obtain ⟨p, l0⟩ := hd
      rw [List.map_cons, List.pairwise_cons] at h
      obtain ⟨hall, htl⟩ := h
      simp only [addToLevels]
      split
      · rename_i hlt
        rw [List.map_cons, List.map_cons, List.pairwise_cons]
        constructor
        · intro a ha
          rcases List.mem_cons.mp ha with rfl | ha'
          · exact hlt
          · exact lt_trans hlt (hall a ha')
        · rw [List.pairwise_cons]
          exact ⟨hall, htl⟩
      · split
        · rw [List.map_cons, List.pairwise_cons]
          exact ⟨hall, htl⟩
        · rename_i hnlt hne
          rw [List.map_cons, List.pairwise_cons]
          constructor
          · intro a ha
            rcases addToLevels_keys price q tl a ha with rfl | ha'
            · omega
            · exact hall a ha'
          · exact ih htl

theorem buildsBook_sorted (b : OrderBook) (hb : BuildsBook b) :
    List.Pairwise (· < ·) (b.levels.map Prod.fst) := by
  induction hb with
  | base => simp [OrderBook.new]
  | bid b price q hb ih =>
      have hlev : (b.add_bid price q).2.levels = b.levels ∨
          (b.add_bid price q).2.levels = (addToLevels price q b.levels).2 := by
        simp only [OrderBook.add_bid]
        split
        · left; rfl
        · split
          · right; rfl
          · split
            · right; rfl
            · right; rfl
      rcases hlev with hlev | hlev <;> rw [hlev]
      · exact ih
      · exact addToLevels_sorted price q b.levels ih
  | ask b price q hb ih =>
      have hlev : (b.add_ask price q).2.levels = b.levels ∨
          (b.add_ask price q).2.levels = (addToLevels price q b.levels).2 := by
        simp only [OrderBook.add_ask]
        split
        · left; rfl
        · split
          · right; rfl
          · split
            · right; rfl
            · right; rfl
      rcases hlev with hlev | hlev <;> rw [hlev]
      · exact ih
      · exact addToLevels_sorted price q b.levels ih

/-- Claim C8: for every book built by a sequence of `add_bid` / `add_ask`
from `new()`, the matches emitted by one `execute_market_buy` are listed in
price-time priority over the ask side — their `(price, maker_id)` keys form a
sublist of the canonical flattening of the ask levels (ascending levels,
FIFO within a level, tombstones skipped), hence match prices ascend and
within one price the matches follow the insertion order of the consumed
quotes — and symmetrically the matches of one `execute_market_sell` follow
the descending flattening of the bid side. -/
theorem C8_price_time_priority (b : OrderBook) (oid tv bal : Nat) (hb : BuildsBook b) :
    (List.Sublist ((b.execute_market_buy oid tv bal).2.1.map matchKey)
        (priceTimeOrder b.ask_levels) ∧
      List.Pairwise (fun a b : Nat => a ≤ b)
        ((b.execute_market_buy oid tv bal).2.1.map Match.price)) ∧
    (List.Sublist ((b.execute_market_sell oid tv).2.1.map matchKey)
        (priceTimeOrder b.bid_levels) ∧
      List.Pairwise (fun a b : Nat => b ≤ a)
        ((b.execute_market_sell oid tv).2.1.map Match.price)) := by
  have hsorted := buildsBook_sorted b hb
  have hmapeq : ∀ ms : List Match,
      ms.map Match.price = (ms.map matchKey).map Prod.fst := by
    intro ms
    rw [List.map_map]
    apply List.map_congr_left
    intro m _
    rfl
  constructor
  · have hask : List.Pairwise (· < ·) (b.ask_levels.map Prod.fst) :=
      List.Pairwise.sublist (List.Sublist.map _ (List.filter_sublist _)) hsorted
    have hptasc := priceTimeOrder_pairwise_asc b.ask_levels hask
    have hfills : (b.execute_market_buy oid tv bal).2.1 = [] ∨
        (b.execute_market_buy oid tv bal).2.1 =
          (execute_market_txn oid tv (.MarketBuy bal) tv b.ask_levels).2.1 := by
      simp only [OrderBook.execute_market_buy]
      split
      · split
        · right; rfl
        · right; rfl
      · left; rfl
    rcases hfills with h0 | h0 <;> rw [h0]
    · exact ⟨List.nil_sublist _, List.Pairwise.nil⟩
    · have hsub := kernel_sublist oid tv (.MarketBuy bal) b.ask_levels tv
      refine ⟨hsub, ?_⟩
      have hk := List.Pairwise.sublist hsub hptasc
      rw [hmapeq, List.pairwise_map, List.pairwise_map]
      rw [List.pairwise_map] at hk
      exact hk
  · have hfkeys : List.Pairwise (· < ·)
        ((b.levels.filter (fun pl => pl.1 ≤ b.best_bid)).map Prod.fst) :=
      List.Pairwise.sublist (List.Sublist.map _ (List.filter_sublist _)) hsorted
    have hbid : List.Pairwise (fun a b : Nat => b < a) (b.bid_levels.map Prod.fst) := by
      rw [OrderBook.bid_levels, List.map_reverse, List.pairwise_reverse]
      exact hfkeys
    have hptdesc := priceTimeOrder_pairwise_desc b.bid_levels hbid
    have hfills : (b.execute_market_sell oid tv).2.1 =
        (execute_market_txn oid tv .MarketSell tv b.bid_levels).2.1 := by
      simp only [OrderBook.execute_market_sell]
      split
      · rfl
      · rfl
    rw [hfills]
    have hsub := kernel_sublist oid tv .MarketSell b.bid_levels tv
    refine ⟨hsub, ?_⟩
    have hk := List.Pairwise.sublist hsub hptdesc
    rw [hmapeq, List.pairwise_map, List.pairwise_map]
    rw [List.pairwise_map] at hk
    exact hk

/-- Witness for C8 on a concrete built book. -/
theorem C8_price_time_priority_witness :
    (List.Sublist (((OrderBook.new.add_ask 10 ⟨1, 5⟩).2.execute_market_buy
          100 3 1000).2.1.map matchKey)
        (priceTimeOrder (OrderBook.new.add_ask 10 ⟨1, 5⟩).2.ask_levels) ∧
      List.Pairwise (fun a b : Nat => a ≤ b)
        (((OrderBook.new.add_ask 10 ⟨1, 5⟩).2.execute_market_buy 100 3 1000).2.1.map
          Match.price)) ∧
    (List.Sublist (((OrderBook.new.add_ask 10 ⟨1, 5⟩).2.execute_market_sell
          100 3).2.1.map matchKey)
        (priceTimeOrder (OrderBook.new.add_ask 10 ⟨1, 5⟩).2.bid_levels) ∧
      List.Pairwise (fun a b : Nat => b ≤ a)
        (((OrderBook.new.add_ask 10 ⟨1, 5⟩).2.execute_market_sell 100 3).2.1.map
          Match.price)) :=
  C8_price_time_priority (OrderBook.new.add_ask 10 ⟨1, 5⟩).2 100 3 1000
    (BuildsBook.ask OrderBook.new 10 ⟨1, 5⟩ BuildsBook.base)

end Cambiare
